import Mathlib

/-
  Verification of the sql_query reconciliation module
  (src/plugins/modules/sql_query.py).

  The embedding models the module's pure decision logic over an abstract
  database: a table is a list of rows, a row is an association list from
  column names to nullable values.  The SQLAlchemy expression objects built
  by the module are modelled as a predicate AST (`Pred`); executing a
  statement against the database is modelled by the `exec*` functions.
  Python's dynamic values are modelled by `Value`; Python `None` is
  `Option.none`.  Exceptions raised by the module are modelled by
  `Except Err`.  The wall clock (`datetime.datetime.now()`) is an explicit
  parameter `now`.
-/

set_option maxRecDepth 8000

namespace SqlQuery

/-- Calendar date, as Python's `datetime.date`. -/
structure PyDate where
  year : Nat
  month : Nat
  day : Nat
deriving DecidableEq

/-- Timestamp, as Python's `datetime.datetime` (second granularity; the
module never compares sub-second values). -/
structure PyDateTime where
  date : PyDate
  hour : Nat
  minute : Nat
  second : Nat
deriving DecidableEq

/-- Dynamic Python/database value. `None` is modelled by `Option.none`
at use sites, not by a `Value` constructor. -/
inductive Value where
  | str (s : String) : Value
  | int (n : Int) : Value
  | bool (b : Bool) : Value
  | date (d : PyDate) : Value
  | dt (d : PyDateTime) : Value
deriving DecidableEq

/-- Exceptions the module can raise.  `invalidValue` stands for the
coercion failures (unparseable integer or date), `unknownColumn` and
`unknownOperator` for the two `ValueError`s raised by
`_where_column_helper` / `_split_filter`, the rest for the dynamic-typing
errors Python raises when a value of the wrong shape is used. -/
inductive Err where
  | invalidValue : Err
  | unknownColumn : Err
  | unknownOperator : Err
  | typeError : Err
  | attributeError : Err
  | keyError : Err
deriving DecidableEq

/-- The seven logical column types of `TYPE_FOR_NAME`. -/
inductive LType where
  | string : LType
  | integer : LType
  | bigInteger : LType
  | boolean : LType
  | date : LType
  | dateTime : LType
  | text : LType
deriving DecidableEq

/- ---------- string helpers (Python str.strip, int(), strptime) ---------- -/

/-- Python `str.strip()` on the underlying character list. -/
def stripChars (l : List Char) : List Char :=
  ((l.dropWhile Char.isWhitespace).reverse.dropWhile Char.isWhitespace).reverse

/-- Python `str.strip()`. -/
def pyStrip (s : String) : String :=
  String.mk (stripChars s.data)

/-- Split a character list on a separator character (Python `str.split(sep)`
shape: `n` separators yield `n+1` groups). -/
def splitOnChar (sep : Char) : List Char → List (List Char)
  | [] => [[]]
  | c :: rest =>
    if c = sep then [] :: splitOnChar sep rest
    else
      match splitOnChar sep rest with
      | [] => [[c]]
      | g :: gs => (c :: g) :: gs

/-- Numeric value of a digit string (callers check `isDigit` first). -/
def digitsToNat (l : List Char) : Nat :=
  l.foldl (fun acc c => acc * 10 + (c.toNat - '0'.toNat)) 0

/-- Python `int(str)`: optional surrounding whitespace, optional sign,
then a nonempty digit string. -/
def parseIntChars (l : List Char) : Option Int :=
  match stripChars l with
  | [] => none
  | '+' :: rest =>
    if rest ≠ [] ∧ rest.all Char.isDigit then some (Int.ofNat (digitsToNat rest)) else none
  | '-' :: rest =>
    if rest ≠ [] ∧ rest.all Char.isDigit then some (-(Int.ofNat (digitsToNat rest))) else none
  | l' =>
    if l'.all Char.isDigit then some (Int.ofNat (digitsToNat l')) else none

/-- `strptime` `%Y` field: exactly four digits, year at least 1
(`datetime` rejects year 0). -/
def parseYear (l : List Char) : Option Nat :=
  if l.length = 4 ∧ l.all Char.isDigit ∧ digitsToNat l ≥ 1 then some (digitsToNat l) else none

/-- One- or two-digit `strptime` field with an inclusive value range. -/
def parseField (lo hi : Nat) (l : List Char) : Option Nat :=
  if (l.length = 1 ∨ l.length = 2) ∧ l.all Char.isDigit then
    let n := digitsToNat l
    if lo ≤ n ∧ n ≤ hi then some n else none
  else none

def isLeapYear (y : Nat) : Bool :=
  y % 4 = 0 && (y % 100 ≠ 0 || y % 400 = 0)

def daysInMonth (y m : Nat) : Nat :=
  if m = 2 then (if isLeapYear y then 29 else 28)
  else if m = 4 ∨ m = 6 ∨ m = 9 ∨ m = 11 then 30
  else 31

/-- `datetime.datetime.strptime(x, '%Y-%m-%d')` (the `datetime`
constructor also validates the day against the month). -/
def parseDateChars (l : List Char) : Option PyDate :=
  match splitOnChar '-' l with
  | [ys, ms, ds] =>
    match parseYear ys, parseField 1 12 ms, parseField 1 31 ds with
    | some y, some m, some d =>
      if d ≤ daysInMonth y m then some ⟨y, m, d⟩ else none
    | _, _, _ => none
  | _ => none

/-- `datetime.datetime.strptime(x, '%Y-%m-%d %H:%M:%S')`. -/
def parseDateTimeChars (l : List Char) : Option PyDateTime :=
  match splitOnChar ' ' l with
  | [dpart, tpart] =>
    match parseDateChars dpart with
    | none => none
    | some d =>
      match splitOnChar ':' tpart with
      | [hs, ms, ss] =>
        match parseField 0 23 hs, parseField 0 59 ms, parseField 0 59 ss with
        | some h, some mi, some s => some ⟨d, h, mi, s⟩
        | _, _, _ => none
      | _ => none
  | _ => none

/- ---------- to_datetime and the type coercion table ---------- -/

/-- `to_datetime(x, date)` from the module: native datetimes and dates pass
through the parsing block; a string equal to `now` after stripping becomes
the current timestamp; any other string is parsed with the fixed format
(producing a midnight datetime for `%Y-%m-%d`); finally, when `date` is
set, a datetime result is truncated to its calendar date.  Non-string,
non-date inputs hit `x.strip()` and raise (`attributeError`). -/
def to_datetime (now : PyDateTime) (x : Value) (dateFlag : Bool) : Except Err Value :=
  let step1 : Except Err Value :=
    match x with
    | Value.dt d => Except.ok (Value.dt d)
    | Value.date d => Except.ok (Value.date d)
    | Value.str s =>
      if pyStrip s = "now" then Except.ok (Value.dt now)
      else if dateFlag then
        match parseDateChars s.data with
        | some d => Except.ok (Value.dt ⟨d, 0, 0, 0⟩)
        | none => Except.error Err.invalidValue
      else
        match parseDateTimeChars s.data with
        | some d => Except.ok (Value.dt d)
        | none => Except.error Err.invalidValue
    | _ => Except.error Err.attributeError
  match step1 with
  | Except.error e => Except.error e
  | Except.ok v =>
    if dateFlag then
      match v with
      | Value.dt d => Except.ok (Value.date d.date)
      | w => Except.ok w
    else Except.ok v

def padTo (width : Nat) (n : Nat) : String :=
  let s := toString n
  String.mk (List.replicate (width - s.length) '0') ++ s

/-- Python `str(x)` for the values the module handles. -/
def pyStr : Value → String
  | Value.str s => s
  | Value.int n => toString n
  | Value.bool b => if b then "True" else "False"
  | Value.date d => padTo 4 d.year ++ "-" ++ padTo 2 d.month ++ "-" ++ padTo 2 d.day
  | Value.dt d =>
    padTo 4 d.date.year ++ "-" ++ padTo 2 d.date.month ++ "-" ++ padTo 2 d.date.day ++ " " ++
      padTo 2 d.hour ++ ":" ++ padTo 2 d.minute ++ ":" ++ padTo 2 d.second

/-- Python `int(x)`. -/
def pyInt : Value → Except Err Value
  | Value.int n => Except.ok (Value.int n)
  | Value.bool b => Except.ok (Value.int (if b then 1 else 0))
  | Value.str s =>
    match parseIntChars s.data with
    | some n => Except.ok (Value.int n)
    | none => Except.error Err.invalidValue
  | _ => Except.error Err.typeError

/-- Python `bool(x)` truthiness. -/
def pyTruthy : Value → Bool
  | Value.str s => s ≠ ""
  | Value.int n => n ≠ 0
  | Value.bool b => b
  | _ => true

/-- The `python` coercion functions of `TYPE_FOR_NAME`, one per logical
type. -/
def typeFunc (now : PyDateTime) : LType → Value → Except Err Value
  | LType.string, v => Except.ok (Value.str (pyStr v))
  | LType.text, v => Except.ok (Value.str (pyStr v))
  | LType.integer, v => pyInt v
  | LType.bigInteger, v => pyInt v
  | LType.boolean, v => Except.ok (Value.bool (pyTruthy v))
  | LType.date, v => to_datetime now v true
  | LType.dateTime, v => to_datetime now v false

/- ---------- dictionaries, rows, database ---------- -/

/-- Python `dict` lookup on an insertion-ordered association list. -/
def dictLookup {α : Type} : List (String × α) → String → Option α
  | [], _ => none
  | p :: rest, k => if p.1 = k then some p.2 else dictLookup rest k

/-- Python `dict` assignment: overwrite in place, or append a fresh key. -/
def dictSet {α : Type} : List (String × α) → String → α → List (String × α)
  | [], k, v => [(k, v)]
  | p :: rest, k, v => if p.1 = k then (k, v) :: rest else p :: dictSet rest k v

/-- `self.new_values`: declared column name to (nullable) declared value. -/
abbrev NV := List (String × Option Value)

/-- `self.type_for_column`: column name to logical type. -/
abbrev TFC := List (String × LType)

/-- A database row over the declared columns; a missing value is SQL NULL. -/
abbrev Row := List (String × Option Value)

/-- The target table's current contents. -/
abbrev DB := List Row

/-- `row[col]` as the database returns it (NULL for a silent miss; the
engine only reads declared columns of well-shaped rows). -/
def rowGet (row : Row) (c : String) : Option Value :=
  match dictLookup row c with
  | some ov => ov
  | none => none

/- ---------- the predicate AST (SQLAlchemy expression objects) ---------- -/

mutual
/-- A SQLAlchemy column expression as built by `where_keys` and
`_split_filter`: `eq` is `column == value` (`IS NULL` for `None`),
`truthy` is a bare column used as a condition (what the `ne` branch
appends), `opApp` is `getattr(column, op)(value)`, and `andP`/`orP` are
`sqlalchemy.sql.and_` / `or_` over an argument list. -/
inductive Pred where
  | eq (column : String) (v : Option Value) : Pred
  | truthy (column : String) : Pred
  | opApp (opName : String) (column : String) (v : Value) : Pred
  | andP (ps : Preds) : Pred
  | orP (ps : Preds) : Pred

/-- Argument list of `and_` / `or_`. -/
inductive Preds where
  | nil : Preds
  | cons (p : Pred) (ps : Preds) : Preds
end

/-- Build an `and_`/`or_` argument list from a Lean list. -/
def Preds.ofList : List Pred → Preds
  | [] => Preds.nil
  | p :: ps => Preds.cons p (Preds.ofList ps)

/-- SQL truthiness of a bare column value in a WHERE clause: NULL is not
true; numbers by non-zeroness; strings by their numeric prefix (MySQL and
SQLite coerce strings numerically); dates are non-zero.  No claim depends
on the string case. -/
def sqlTruthy : Option Value → Bool
  | none => false
  | some (Value.int n) => n ≠ 0
  | some (Value.bool b) => b
  | some (Value.str s) =>
    match parseIntChars (s.data.takeWhile (fun c => c.isDigit ∨ c = '-' ∨ c = '+')) with
    | some n => n ≠ 0
    | none => false
  | some _ => true

/-- Operator names the abstract column capability exposes (the attributes
`getattr(column, key)` finds on a SQLAlchemy column). -/
def supportedOps : List String :=
  ["like", "ilike", "notlike", "notilike", "startswith", "endswith",
   "contains", "in_", "notin_", "is_", "isnot", "between", "match"]

/-- SQL LIKE pattern match (`%` and `_` wildcards). -/
def likeMatch : List Char → List Char → Bool
  | [], [] => true
  | [], _ :: _ => false
  | '%' :: ps, [] => likeMatch ps []
  | '%' :: ps, t :: ts => likeMatch ps (t :: ts) || likeMatch ('%' :: ps) ts
  | '_' :: _, [] => false
  | '_' :: ps, _ :: ts => likeMatch ps ts
  | _ :: _, [] => false
  | p :: ps, t :: ts => p = t && likeMatch ps ts
termination_by p t => p.length + t.length

/-- Semantics of the named column operators; only `like`/`ilike` are given
real semantics (no claim evaluates the others). -/
def evalOp (opName : String) (colVal : Option Value) (v : Value) : Bool :=
  match colVal with
  | none => false
  | some cv =>
    if opName = "like" then likeMatch (pyStr v).data (pyStr cv).data
    else if opName = "ilike" then
      likeMatch ((pyStr v).data.map Char.toLower) ((pyStr cv).data.map Char.toLower)
    else false

mutual
/-- Evaluate a predicate against a row (the database's WHERE semantics). -/
def evalPred (row : Row) : Pred → Bool
  | Pred.eq c ov => rowGet row c == ov
  | Pred.truthy c => sqlTruthy (rowGet row c)
  | Pred.opApp k c v => evalOp k (rowGet row c) v
  | Pred.andP ps => evalAnd row ps
  | Pred.orP ps => evalOr row ps

def evalAnd (row : Row) : Preds → Bool
  | Preds.nil => true
  | Preds.cons p ps => evalPred row p && evalAnd row ps

def evalOr (row : Row) : Preds → Bool
  | Preds.nil => false
  | Preds.cons p ps => evalPred row p || evalOr row ps
end

/-- An absent WHERE clause selects every row. -/
def evalWhere (wc : Option Pred) (row : Row) : Bool :=
  match wc with
  | none => true
  | some p => evalPred row p

/- ---------- the filter compiler (_split_filter) ---------- -/

/-- The `filter` parameter: a Python dict whose entries carry either a
nested dict (under `and`/`or`) or a `column`/`value` leaf (under an
operator key). -/
inductive FDict where
  | nil : FDict
  | consSub (key : String) (sub : FDict) (rest : FDict) : FDict
  | consLeaf (key : String) (column : String) (value : Value) (rest : FDict) : FDict

/-- Python dict truthiness of the filter (`if fltrs:`). -/
def FDict.isNil : FDict → Bool
  | FDict.nil => true
  | _ => false

/-- `_where_column_helper`: resolve a column name against the declared
columns or raise `ValueError`. -/
def whereColumnHelper (cols : List String) (c : String) : Except Err Unit :=
  if cols.contains c then Except.ok () else Except.error Err.unknownColumn

/-- `_split_filter`: compile the filter dict into a predicate list, in
entry order.  `and`/`or` recurse; `eq` compiles `column == value`; `ne`
appends the bare column reference (the module ignores the value here);
other keys are attribute lookups on the column.  A payload of the wrong
shape for its key raises (`typeError`), an unknown column or operator
raises `ValueError`. -/
def splitFilter (cols : List String) : FDict → Except Err (List Pred)
  | FDict.nil => Except.ok []
  | FDict.consSub k sub rest =>
    if k = "and" then
      match splitFilter cols sub with
      | Except.error e => Except.error e
      | Except.ok ps =>
        match splitFilter cols rest with
        | Except.error e => Except.error e
        | Except.ok more => Except.ok (Pred.andP (Preds.ofList ps) :: more)
    else if k = "or" then
      match splitFilter cols sub with
      | Except.error e => Except.error e
      | Except.ok ps =>
        match splitFilter cols rest with
        | Except.error e => Except.error e
        | Except.ok more => Except.ok (Pred.orP (Preds.ofList ps) :: more)
    else Except.error Err.typeError
  | FDict.consLeaf k c v rest =>
    if k = "and" then Except.error Err.typeError
    else if k = "or" then Except.error Err.typeError
    else
      match whereColumnHelper cols c with
      | Except.error e => Except.error e
      | Except.ok _ =>
        if k = "eq" then
          match splitFilter cols rest with
          | Except.error e => Except.error e
          | Except.ok more => Except.ok (Pred.eq c (some v) :: more)
        else if k = "ne" then
          match splitFilter cols rest with
          | Except.error e => Except.error e
          | Except.ok more => Except.ok (Pred.truthy c :: more)
        else if supportedOps.contains k then
          match splitFilter cols rest with
          | Except.error e => Except.error e
          | Except.ok more => Except.ok (Pred.opApp k c v :: more)
        else Except.error Err.unknownOperator

/- ---------- where_keys and the statement builders ---------- -/

/-- The key-equality arguments of `where_keys`: for each key column, look
up its declared value (`KeyError` is passed over) and append
`column == value` after resolving the column. -/
def whereKeysArgs (cols : List String) (nv : NV) : List String → Except Err (List Pred)
  | [] => Except.ok []
  | k :: ks =>
    match dictLookup nv k with
    | none => whereKeysArgs cols nv ks
    | some ov =>
      match whereColumnHelper cols k with
      | Except.error e => Except.error e
      | Except.ok _ =>
        match whereKeysArgs cols nv ks with
        | Except.error e => Except.error e
        | Except.ok ps => Except.ok (Pred.eq k ov :: ps)

/-- `stmt.where(and_(*args))` applied only when `args` is nonempty. -/
def mkWhere (args : List Pred) : Option Pred :=
  if args.isEmpty then none else some (Pred.andP (Preds.ofList args))

/-- `where_keys`: key equalities, then the compiled filter appended, all
combined under a single `and_`. -/
def whereClause (cols : List String) (keys : List String) (nv : NV) (fltr : FDict) :
    Except Err (Option Pred) :=
  match whereKeysArgs cols nv keys with
  | Except.error e => Except.error e
  | Except.ok kargs =>
    match (if fltr.isNil then Except.ok [] else splitFilter cols fltr) with
    | Except.error e => Except.error e
    | Except.ok fargs => Except.ok (mkWhere (kargs ++ fargs))

/-- The read statement `select_rows` builds: optional DISTINCT, optional
COUNT wrapper, optional WHERE. -/
structure SelectStmt where
  distinct : Bool
  isCount : Bool
  wc : Option Pred

/-- A statement as executed against the database (the run trace records
these). -/
inductive Stmt where
  | read (s : SelectStmt) : Stmt
  | insert (vals : NV) : Stmt
  | update (wc : Option Pred) (sets : NV) : Stmt
  | delete (wc : Option Pred) : Stmt

def Stmt.isMutating : Stmt → Bool
  | Stmt.read _ => false
  | _ => true

/-- Execute a read: filter by the WHERE clause, apply DISTINCT, and for
count mode return the single `tbl_row_count` row SQLAlchemy's
`Select.count()` produces. -/
def execSelect (s : SelectStmt) (db : DB) : List Row :=
  let sel := db.filter (fun r => evalWhere s.wc r)
  let sel2 := if s.distinct then sel.dedup else sel
  if s.isCount then [[("tbl_row_count", some (Value.int (Int.ofNat sel2.length)))]] else sel2

/-- Apply an UPDATE's SET assignments to one row. -/
def rowUpdate (sets : NV) (row : Row) : Row :=
  row.map (fun p =>
    match dictLookup sets p.1 with
    | some ov => (p.1, ov)
    | none => p)

/-- `update_rows`: set the non-key declared values on every row matching
the WHERE clause. -/
def execUpdate (wc : Option Pred) (sets : NV) (db : DB) : DB :=
  db.map (fun r => if evalWhere wc r then rowUpdate sets r else r)

/-- The row an INSERT creates, as the subsequent SELECT returns it:
declared columns in order, NULL where no value was declared. -/
def newRowOf (cols : List String) (nv : NV) : Row :=
  cols.map (fun c =>
    (c, match dictLookup nv c with
        | some ov => ov
        | none => none))

/-- `insert_row`. -/
def execInsert (cols : List String) (nv : NV) (db : DB) : DB :=
  db ++ [newRowOf cols nv]

/-- `delete_rows`: keep the rows the WHERE clause does not match. -/
def execDelete (wc : Option Pred) (db : DB) : DB :=
  db.filter (fun r => !(evalWhere wc r))

/- ---------- compare_rows and format_rows ---------- -/

/-- Inner loop of `compare_rows`: some declared value differs from the
row's stored value. -/
def rowDiffers (nv : NV) (row : Row) : Bool :=
  nv.any (fun p => !(p.2 == rowGet row p.1))

/-- `compare_rows`: true iff any selected row differs from the declared
values on any declared column. -/
def compareRows (nv : NV) (rows : List Row) : Bool :=
  rows.any (rowDiffers nv)

/-- `format_rows` body for one row: NULL passes through untouched, other
values go through the column's coercion function; an undeclared column
name raises `KeyError`. -/
def formatRow (now : PyDateTime) (tfc : TFC) : Row → Except Err Row
  | [] => Except.ok []
  | (c, ov) :: rest =>
    match dictLookup tfc c with
    | none => Except.error Err.keyError
    | some t =>
      match ov with
      | none =>
        match formatRow now tfc rest with
        | Except.error e => Except.error e
        | Except.ok fr => Except.ok ((c, none) :: fr)
      | some v =>
        match typeFunc now t v with
        | Except.error e => Except.error e
        | Except.ok w =>
          match formatRow now tfc rest with
          | Except.error e => Except.error e
          | Except.ok fr => Except.ok ((c, some w) :: fr)

/-- `format_rows` over a row list. -/
def formatRows (now : PyDateTime) (tfc : TFC) : List Row → Except Err (List Row)
  | [] => Except.ok []
  | r :: rs =>
    match formatRow now tfc r with
    | Except.error e => Except.error e
    | Except.ok fr =>
      match formatRows now tfc rs with
      | Except.error e => Except.error e
      | Except.ok frs => Except.ok (fr :: frs)

/-- What `format_rows` receives: normally a row list, but the check-mode
present path passes the `new_values` dict itself. -/
inductive RowsLike where
  | list (rows : List Row) : RowsLike
  | dict (nv : NV) : RowsLike

/-- `format_rows` on either shape.  Iterating a dict yields its key
strings, and `row.keys()` on a string raises `AttributeError`; an empty
dict yields no rows at all. -/
def formatRowsLike (now : PyDateTime) (tfc : TFC) : RowsLike → Except Err (List Row)
  | RowsLike.list rows => formatRows now tfc rows
  | RowsLike.dict [] => Except.ok []
  | RowsLike.dict (_ :: _) => Except.error Err.attributeError

/- ---------- create_table and the reconciliation engine ---------- -/

/-- One entry of the `columns` parameter: the outer `Option` is whether a
`value` entry is present at all, the inner one whether it is null. -/
structure ColSpec where
  name : String
  ty : LType
  value : Option (Option Value)

/-- The `state` parameter. -/
inductive Mode where
  | present : Mode
  | absent : Mode
  | select : Mode
  | insert : Mode
  | count : Mode
deriving DecidableEq

/-- The module's validated request (the Ansible parameters; the connection
URL and table name only reach the external driver and carry no logic). -/
structure Request where
  table : String
  keys : List String
  columns : List ColSpec
  state : Mode
  distinct : Bool
  filter : FDict
  checkMode : Bool

/-- Loop body of `create_table`, threading `new_values` and
`type_for_column`: a declared non-null value is coerced by the column
type's function (failures propagate); a column with a `value` entry —
null included — lands in `new_values`. -/
def createTableAux (now : PyDateTime) (nv : NV) (tfc : TFC) :
    List ColSpec → Except Err (NV × TFC)
  | [] => Except.ok (nv, tfc)
  | c :: rest =>
    let coerced : Except Err (Option Value) :=
      match c.value with
      | none => Except.ok none
      | some none => Except.ok none
      | some (some v) =>
        match typeFunc now c.ty v with
        | Except.error e => Except.error e
        | Except.ok w => Except.ok (some w)
    match coerced with
    | Except.error e => Except.error e
    | Except.ok val =>
      let nv' := match c.value with
        | none => nv
        | some _ => dictSet nv c.name val
      createTableAux now nv' (dictSet tfc c.name c.ty) rest

/-- `create_table`: build `new_values` and `type_for_column` from the
declared columns. -/
def createTable (now : PyDateTime) (cols : List ColSpec) : Except Err (NV × TFC) :=
  createTableAux now [] [] cols

/-- Outcome of one invocation: the module's exit value (or the exception
that escaped), the database afterwards, and the statements executed
against it, in order. -/
structure RunResult where
  res : Except Err (Bool × Option (List Row))
  db : DB
  trace : List Stmt

/-- `SQLQuery.__init__`: the whole per-invocation state machine.  Builds
the column metadata, builds and runs the read, then dispatches on the
mode exactly as the module does; `checkMode` is Ansible check mode
(dry run). -/
def run (now : PyDateTime) (req : Request) (db : DB) : RunResult :=
  match createTable now req.columns with
  | Except.error e => ⟨Except.error e, db, []⟩
  | Except.ok (nv, tfc) =>
    let cols := tfc.map Prod.fst
    match whereClause cols req.keys nv req.filter with
    | Except.error e => ⟨Except.error e, db, []⟩
    | Except.ok wc =>
      let stmt : SelectStmt := ⟨req.distinct, decide (req.state = Mode.count), wc⟩
      let rowsAfter := execSelect stmt db
      let tr0 : List Stmt := [Stmt.read stmt]
      match req.state with
      | Mode.select =>
        ⟨(formatRows now tfc rowsAfter).map (fun fr => (false, some fr)), db, tr0⟩
      | Mode.count =>
        ⟨(formatRows now tfc rowsAfter).map (fun fr => (false, some fr)), db, tr0⟩
      | Mode.absent =>
        let changed : Bool := if rowsAfter.length < 1 then false else true
        if changed && !req.checkMode then
          ⟨Except.ok (changed, none), execDelete wc db, tr0 ++ [Stmt.delete wc]⟩
        else
          ⟨Except.ok (changed, none), db, tr0⟩
      | Mode.insert =>
        let step :=
          if req.checkMode then (db, tr0)
          else (execInsert cols nv db, tr0 ++ [Stmt.insert nv])
        let rows2 := execSelect stmt step.1
        ⟨(formatRows now tfc rows2).map (fun fr => (true, some fr)), step.1,
          step.2 ++ [Stmt.read stmt]⟩
      | Mode.present =>
        let changed : Bool := if rowsAfter.length < 1 then true else compareRows nv rowsAfter
        if req.checkMode then
          ⟨(formatRowsLike now tfc (RowsLike.dict nv)).map (fun fr => (changed, some fr)),
            db, tr0⟩
        else if changed then
          let sets := nv.filter (fun p => !(decide (p.1 ∈ req.keys)))
          let step :=
            if rowsAfter.length < 1 then (execInsert cols nv db, tr0 ++ [Stmt.insert nv])
            else (execUpdate wc sets db, tr0 ++ [Stmt.update wc sets])
          let rows2 := execSelect stmt step.1
          ⟨(formatRows now tfc rows2).map (fun fr => (changed, some fr)), step.1,
            step.2 ++ [Stmt.read stmt]⟩
        else
          ⟨(formatRows now tfc rowsAfter).map (fun fr => (changed, some fr)), db, tr0⟩

/- ---------- derived notions used by the statements of the claims ---------- -/

/-- The key-equality predicates of the specification's description of
`where_keys`: one `column = declaredValue` per key that has a declared
value, in key order. -/
def keyEqs (keys : List String) (nv : NV) : List Pred :=
  keys.filterMap (fun k => (dictLookup nv k).map (fun ov => Pred.eq k ov))

/-- The `type_for_column` table `create_table` produces, written directly. -/
def tfcSpec (cols : List ColSpec) : TFC :=
  cols.map (fun c => (c.name, c.ty))

/-- The `new_values` dict `create_table` produces (for distinct column
names), written directly: columns with a `value` entry, coerced. -/
def nvSpec (now : PyDateTime) : List ColSpec → Except Err NV
  | [] => Except.ok []
  | c :: rest =>
    match c.value with
    | none => nvSpec now rest
    | some none =>
      match nvSpec now rest with
      | Except.error e => Except.error e
      | Except.ok nvs => Except.ok ((c.name, none) :: nvs)
    | some (some v) =>
      match typeFunc now c.ty v with
      | Except.error e => Except.error e
      | Except.ok w =>
        match nvSpec now rest with
        | Except.error e => Except.error e
        | Except.ok nvs => Except.ok ((c.name, some w) :: nvs)

/-- `new_values` is consistent with `type_for_column`: distinct keys, every
key declared, and every non-null value a fixed point of its column's
coercion (which coerced values are). -/
def nvOk (now : PyDateTime) (tfc : TFC) (nv : NV) : Prop :=
  (nv.map Prod.fst).Nodup ∧
  ∀ p ∈ nv, (dictLookup tfc p.1).isSome ∧
    ∀ v, p.2 = some v → ∃ t, dictLookup tfc p.1 = some t ∧ typeFunc now t v = Except.ok v

/-- A database row is well shaped for the declared columns: its keys are
the declared column names in order, and every stored non-null value is a
fixed point of its column's coercion (i.e. the column really holds values
of its declared type). -/
def rowWf (now : PyDateTime) (tfc : TFC) (row : Row) : Prop :=
  row.map Prod.fst = tfc.map Prod.fst ∧
  ∀ p ∈ row, ∀ v, p.2 = some v →
    ∃ t, dictLookup tfc p.1 = some t ∧ typeFunc now t v = Except.ok v

/-- Every row of the table is well shaped. -/
def dbWf (now : PyDateTime) (tfc : TFC) (db : DB) : Prop :=
  ∀ row ∈ db, rowWf now tfc row

/-- A row agrees with every declared value. -/
def agreesNv (nv : NV) (row : Row) : Prop :=
  ∀ p ∈ nv, rowGet row p.1 = p.2

/-- The read statements of a run trace, in order. -/
def readStmts (tr : List Stmt) : List SelectStmt :=
  tr.filterMap (fun s =>
    match s with
    | Stmt.read s0 => some s0
    | _ => none)

/-- The specification's description of Date/DateTime coercion, written
from its words, for comparison with the module's `to_datetime`: a native
datetime passes through (truncated for Date), a native date passes
through, the trimmed token `now` is replaced by the current evaluation
timestamp (truncated for Date), any other text is parsed with the fixed
format, and a mismatch fails with `InvalidValueError`. -/
def dateCoerceSpec (now : PyDateTime) (x : Value) (dateFlag : Bool) : Except Err Value :=
  match x with
  | Value.dt d => Except.ok (if dateFlag then Value.date d.date else Value.dt d)
  | Value.date d => Except.ok (Value.date d)
  | Value.str s =>
    if pyStrip s = "now" then
      Except.ok (if dateFlag then Value.date now.date else Value.dt now)
    else if dateFlag then
      match parseDateChars s.data with
      | some d => Except.ok (Value.date d)
      | none => Except.error Err.invalidValue
    else
      match parseDateTimeChars s.data with
      | some d => Except.ok (Value.dt d)
      | none => Except.error Err.invalidValue
  | _ => Except.error Err.attributeError

/- ---------- concrete fixtures used by witnesses and counterexamples ---------- -/

/-- A fixed evaluation clock. -/
def now0 : PyDateTime := ⟨⟨2020, 5, 1⟩, 12, 0, 0⟩

/-- The ensure-present request of the module's first documented example:
keys `col1`, desired state `col1 = "blubb"`, `col2 = 1`. -/
def reqPresent : Request :=
  ⟨"test", ["col1"],
   [⟨"col1", LType.string, some (some (Value.str "blubb"))⟩,
    ⟨"col2", LType.integer, some (some (Value.int 1))⟩],
   Mode.present, false, FDict.nil, false⟩

/-- The same request in check mode (dry run). -/
def reqPresentCheck : Request :=
  { reqPresent with checkMode := true }

/-- The same request with DISTINCT requested, and with the given
`distinct` flag. -/
def reqPresentDistinct (b : Bool) : Request :=
  { reqPresent with distinct := b }

/-- A plain select request. -/
def reqSelect : Request :=
  { reqPresent with state := Mode.select }

/-- The log-insert example request, in check mode. -/
def reqInsertCheck : Request :=
  ⟨"somelog", [],
   [⟨"logtext", LType.string, some (some (Value.str "some important text"))⟩],
   Mode.insert, false, FDict.nil, true⟩

/-- The documented absent-mode scenario: delete where `col1 = "zzz"`. -/
def reqAbsent : Request :=
  ⟨"test", ["col1"],
   [⟨"col1", LType.string, some (some (Value.str "zzz"))⟩],
   Mode.absent, false, FDict.nil, false⟩

/-- A one-row table whose `col1` is `"aaa"` (so `reqAbsent` matches
nothing). -/
def dbOneAaa : DB := [[("col1", some (Value.str "aaa"))]]

/-- How one formatted entry relates to its stored entry: same column; a
stored NULL is returned as null untouched (never handed to the coercion
function), a stored non-null value is returned as the output of the
column's coercion function. -/
def formattedEntry (now : PyDateTime) (tfc : TFC) (p q : String × Option Value) : Prop :=
  q.1 = p.1 ∧ ((p.2 = none ∧ q.2 = none) ∨
    ∃ v w t, p.2 = some v ∧ q.2 = some w ∧ dictLookup tfc p.1 = some t ∧
      typeFunc now t v = Except.ok w)

/-- A two-column type table used by concrete witnesses. -/
def tfcW : TFC := [("a", LType.integer), ("b", LType.string)]

/- ---------- dictionary lemmas ---------- -/

theorem dictLookup_append {α : Type} (d1 d2 : List (String × α)) (k : String) :
    dictLookup (d1 ++ d2) k =
      match dictLookup d1 k with
      | some v => some v
      | none => dictLookup d2 k := by
  induction d1 with
  | nil => simp [dictLookup]
  | cons p rest ih =>
    by_cases h : p.1 = k <;> simp [dictLookup, h, ih]

theorem dictSet_fresh {α : Type} (d : List (String × α)) (k : String) (v : α)
    (h : dictLookup d k = none) : dictSet d k v = d ++ [(k, v)] := by
  induction d with
  | nil => rfl
  | cons p rest ih =>
    by_cases hp : p.1 = k
    · simp [dictLookup, hp] at h
    · simp [dictLookup, hp] at h
      simp [dictSet, hp, ih h]

theorem dictLookup_mem {α : Type} {d : List (String × α)} {k : String} {v : α}
    (h : dictLookup d k = some v) : (k, v) ∈ d := by
  induction d with
  | nil => simp [dictLookup] at h
  | cons p rest ih =>
    obtain ⟨a, b⟩ := p
    by_cases hp : a = k
    · simp only [dictLookup, if_pos hp, Option.some_inj] at h
      subst hp
      subst h
      exact List.mem_cons_self _ _
    · simp only [dictLookup, if_neg hp] at h
      exact List.mem_cons_of_mem _ (ih h)

theorem mem_dictLookup_of_nodup {α : Type} {d : List (String × α)} {k : String} {v : α}
    (hd : (d.map Prod.fst).Nodup) (h : (k, v) ∈ d) : dictLookup d k = some v := by
  induction d with
  | nil => simp at h
  | cons p rest ih =>
    simp only [List.map_cons, List.nodup_cons] at hd
    rcases List.mem_cons.mp h with h | h
    · subst h
      simp [dictLookup]
    · have hk : p.1 ≠ k := by
        intro he
        exact hd.1 (he ▸ (List.mem_map.mpr ⟨(k, v), h, rfl⟩))
      simp [dictLookup, hk, ih hd.2 h]

theorem dictLookup_isSome_of_mem_keys {α : Type} {d : List (String × α)} {k : String}
    (h : k ∈ d.map Prod.fst) : (dictLookup d k).isSome := by
  induction d with
  | nil => simp at h
  | cons p rest ih =>
    by_cases hp : p.1 = k
    · simp [dictLookup, hp]
    · simp only [List.map_cons, List.mem_cons] at h
      rcases h with h | h
      · exact absurd h.symm hp
      · simp [dictLookup, hp, ih h]

theorem mem_keys_of_dictLookup {α : Type} {d : List (String × α)} {k : String} {v : α}
    (h : dictLookup d k = some v) : k ∈ d.map Prod.fst :=
  List.mem_map.mpr ⟨(k, v), dictLookup_mem h, rfl⟩

/-- Looking up in the non-key SET columns of `update_rows`. -/
theorem dictLookup_filter_notkeys (nv : NV) (keys : List String) (c : String) :
    dictLookup (nv.filter (fun p => !(decide (p.1 ∈ keys)))) c =
      if c ∈ keys then none else dictLookup nv c := by
  induction nv with
  | nil => simp [dictLookup]
  | cons p rest ih =>
    by_cases hk : p.1 ∈ keys
    · rw [List.filter_cons_of_neg (by simp [hk]), ih]
      by_cases hp : p.1 = c
      · subst hp
        rw [if_pos hk, if_pos hk]
      · by_cases hc : c ∈ keys
        · rw [if_pos hc, if_pos hc]
        · rw [if_neg hc, if_neg hc]
          simp [dictLookup, hp]
    · rw [List.filter_cons_of_pos (by simp [hk])]
      by_cases hp : p.1 = c
      · subst hp
        rw [if_neg hk]
        simp [dictLookup]
      · simp only [dictLookup, if_neg hp]
        rw [ih]

/- ---------- row lemmas ---------- -/

theorem rowUpdate_keys (sets : NV) (row : Row) :
    (rowUpdate sets row).map Prod.fst = row.map Prod.fst := by
  induction row with
  | nil => rfl
  | cons p rest ih =>
    cases h : dictLookup sets p.1 <;> simp [rowUpdate, h] <;>
      simpa [rowUpdate] using ih

theorem rowGet_rowUpdate_none {sets : NV} {c : String} (row : Row)
    (h : dictLookup sets c = none) :
    rowGet (rowUpdate sets row) c = rowGet row c := by
  induction row with
  | nil => rfl
  | cons p rest ih =>
    by_cases hp : p.1 = c
    · subst hp
      cases hs : dictLookup sets p.1 with
      | none => simp [rowUpdate, rowGet, dictLookup, hs]
      | some ov => rw [h] at hs; cases hs
    · cases hs : dictLookup sets p.1 <;>
        simpa [rowUpdate, rowGet, dictLookup, hs, hp] using ih

theorem rowGet_rowUpdate_some {sets : NV} {c : String} {ov : Option Value} (row : Row)
    (h : dictLookup sets c = some ov) (hc : c ∈ row.map Prod.fst) :
    rowGet (rowUpdate sets row) c = ov := by
  induction row with
  | nil => simp at hc
  | cons p rest ih =>
    by_cases hp : p.1 = c
    · subst hp
      simp [rowUpdate, rowGet, dictLookup, h]
    · simp only [List.map_cons, List.mem_cons] at hc
      rcases hc with hc | hc
      · exact absurd hc.symm hp
      · cases hs : dictLookup sets p.1 <;>
          simpa [rowUpdate, rowGet, dictLookup, hs, hp] using ih hc

theorem newRowOf_keys (cols : List String) (nv : NV) :
    (newRowOf cols nv).map Prod.fst = cols := by
  induction cols with
  | nil => rfl
  | cons c rest ih =>
    show c :: (newRowOf rest nv).map Prod.fst = c :: rest
    rw [ih]

theorem rowGet_newRowOf {cols : List String} {c : String} (nv : NV) (hc : c ∈ cols) :
    rowGet (newRowOf cols nv) c =
      match dictLookup nv c with
      | some ov => ov
      | none => none := by
  induction cols with
  | nil => simp at hc
  | cons c0 rest ih =>
    by_cases h0 : c0 = c
    · subst h0
      simp [newRowOf, rowGet, dictLookup]
    · rcases List.mem_cons.mp hc with hc' | hc'
      · exact absurd hc'.symm h0
      · simpa [newRowOf, rowGet, dictLookup, h0] using ih hc'

/- ---------- predicate evaluation lemmas ---------- -/

theorem evalAnd_ofList (row : Row) (ps : List Pred) :
    evalAnd row (Preds.ofList ps) = ps.all (evalPred row) := by
  induction ps with
  | nil => rfl
  | cons p rest ih => simp [Preds.ofList, evalAnd, ih, List.all_cons]

theorem evalWhere_mkWhere (args : List Pred) (row : Row) :
    evalWhere (mkWhere args) row = args.all (evalPred row) := by
  cases args with
  | nil => rfl
  | cons p rest => simp [mkWhere, evalWhere, evalPred, evalAnd_ofList]

theorem mem_keyEqs {keys : List String} {nv : NV} {p : Pred} :
    p ∈ keyEqs keys nv ↔ ∃ k ov, p = Pred.eq k ov ∧ k ∈ keys ∧ dictLookup nv k = some ov := by
  simp only [keyEqs, List.mem_filterMap, Option.map_eq_some']
  constructor
  · rintro ⟨k, hk, ov, hov, rfl⟩
    exact ⟨k, ov, rfl, hk, hov⟩
  · rintro ⟨k, ov, rfl, hk, hov⟩
    exact ⟨k, hk, ov, hov, rfl⟩

theorem evalWhere_keyEqs_iff (keys : List String) (nv : NV) (row : Row) :
    evalWhere (mkWhere (keyEqs keys nv)) row = true ↔
      ∀ k ∈ keys, ∀ ov, dictLookup nv k = some ov → rowGet row k = ov := by
  rw [evalWhere_mkWhere, List.all_eq_true]
  constructor
  · intro h k hk ov hov
    have := h (Pred.eq k ov) (mem_keyEqs.mpr ⟨k, ov, rfl, hk, hov⟩)
    simpa [evalPred] using this
  · intro h p hp
    obtain ⟨k, ov, rfl, hk, hov⟩ := mem_keyEqs.mp hp
    simp [evalPred, h k hk ov hov]

theorem bool_eq_of_iff {a b : Bool} (h : a = true ↔ b = true) : a = b := by
  cases a <;> cases b <;> simp_all

/- ---------- selection lemmas (read statements without COUNT) ---------- -/

theorem execSelect_mem {dist : Bool} {wc : Option Pred} {db : DB} {r : Row}
    (h : r ∈ execSelect ⟨dist, false, wc⟩ db) : r ∈ db ∧ evalWhere wc r = true := by
  cases dist with
  | false => simpa [execSelect, List.mem_filter] using h
  | true => simpa [execSelect, List.mem_dedup, List.mem_filter] using h

theorem execSelect_eq_nil_iff {dist : Bool} {wc : Option Pred} {db : DB} :
    execSelect ⟨dist, false, wc⟩ db = [] ↔ ∀ r ∈ db, evalWhere wc r = false := by
  cases dist <;>
    simp [execSelect, List.filter_eq_nil_iff, List.dedup_eq_nil]

theorem execSelect_ne_nil {dist : Bool} {wc : Option Pred} {db : DB} {r : Row}
    (hr : r ∈ db) (hm : evalWhere wc r = true) : execSelect ⟨dist, false, wc⟩ db ≠ [] := by
  intro h
  have := (execSelect_eq_nil_iff.mp h) r hr
  rw [hm] at this
  cases this

/- ---------- compare_rows ---------- -/

theorem compareRows_eq_false_iff (nv : NV) (rows : List Row) :
    compareRows nv rows = false ↔ ∀ row ∈ rows, ∀ p ∈ nv, rowGet row p.1 = p.2 := by
  unfold compareRows rowDiffers
  rw [List.any_eq_false]
  constructor
  · intro h row hrow p hp
    have h2 := h row hrow
    rw [List.any_eq_true] at h2
    by_contra hne
    refine h2 ⟨p, hp, ?_⟩
    have hb : (p.2 == rowGet row p.1) = false :=
      beq_eq_false_iff_ne.mpr (fun he => hne he.symm)
    rw [hb]
    rfl
  · intro h row hrow
    rw [List.any_eq_true]
    rintro ⟨p, hp, hd⟩
    have hb : (p.2 == rowGet row p.1) = true := beq_iff_eq.mpr (h row hrow p hp).symm
    rw [hb] at hd
    simp at hd

/- ---------- coercion idempotence ---------- -/

theorem pyInt_shape {v w : Value} (h : pyInt v = Except.ok w) : ∃ n, w = Value.int n := by
  cases v with
  | int n =>
    simp only [pyInt, Except.ok.injEq] at h
    exact ⟨n, h.symm⟩
  | bool b =>
    simp only [pyInt, Except.ok.injEq] at h
    exact ⟨if b then 1 else 0, h.symm⟩
  | str s =>
    cases hp : parseIntChars s.data with
    | none => simp [pyInt, hp] at h
    | some n =>
      simp only [pyInt, hp, Except.ok.injEq] at h
      exact ⟨n, h.symm⟩
  | date d => simp [pyInt] at h
  | dt d => simp [pyInt] at h

theorem to_datetime_true_shape {now : PyDateTime} {v w : Value}
    (h : to_datetime now v true = Except.ok w) : ∃ d, w = Value.date d := by
  cases v with
  | dt d =>
    simp [to_datetime] at h
    subst h
    exact ⟨_, rfl⟩
  | date d =>
    simp [to_datetime] at h
    subst h
    exact ⟨_, rfl⟩
  | str s =>
    by_cases hn : pyStrip s = "now"
    · simp [to_datetime, hn] at h
      subst h
      exact ⟨_, rfl⟩
    · cases hp : parseDateChars s.data with
      | none => simp [to_datetime, hn, hp] at h
      | some d =>
        simp [to_datetime, hn, hp] at h
        subst h
        exact ⟨_, rfl⟩
  | int n => simp [to_datetime] at h
  | bool b => simp [to_datetime] at h

theorem to_datetime_false_shape {now : PyDateTime} {v w : Value}
    (h : to_datetime now v false = Except.ok w) :
    (∃ d, w = Value.dt d) ∨ (∃ d, w = Value.date d) := by
  cases v with
  | dt d =>
    simp [to_datetime] at h
    subst h
    exact Or.inl ⟨_, rfl⟩
  | date d =>
    simp [to_datetime] at h
    subst h
    exact Or.inr ⟨_, rfl⟩
  | str s =>
    by_cases hn : pyStrip s = "now"
    · simp [to_datetime, hn] at h
      subst h
      exact Or.inl ⟨_, rfl⟩
    · cases hp : parseDateTimeChars s.data with
      | none => simp [to_datetime, hn, hp] at h
      | some d =>
        simp [to_datetime, hn, hp] at h
        subst h
        exact Or.inl ⟨_, rfl⟩
  | int n => simp [to_datetime] at h
  | bool b => simp [to_datetime] at h

/-- Each coercion function is the identity on its own outputs, so the
values `create_table` stores in `new_values` are fixed points. -/
theorem typeFunc_idem {now : PyDateTime} {t : LType} {v w : Value}
    (h : typeFunc now t v = Except.ok w) : typeFunc now t w = Except.ok w := by
  cases t with
  | string =>
    simp only [typeFunc, Except.ok.injEq] at h
    subst h
    rfl
  | text =>
    simp only [typeFunc, Except.ok.injEq] at h
    subst h
    rfl
  | integer =>
    obtain ⟨n, rfl⟩ := pyInt_shape (by simpa [typeFunc] using h)
    rfl
  | bigInteger =>
    obtain ⟨n, rfl⟩ := pyInt_shape (by simpa [typeFunc] using h)
    rfl
  | boolean =>
    simp only [typeFunc, Except.ok.injEq] at h
    subst h
    rfl
  | date =>
    obtain ⟨d, rfl⟩ := to_datetime_true_shape (by simpa [typeFunc] using h)
    rfl
  | dateTime =>
    rcases to_datetime_false_shape (by simpa [typeFunc] using h) with ⟨d, rfl⟩ | ⟨d, rfl⟩ <;> rfl

/- ---------- create_table characterization ---------- -/

theorem createTableAux_eq (now : PyDateTime) :
    ∀ (cols : List ColSpec) (nv0 : NV) (tfc0 : TFC),
    (∀ c ∈ cols, dictLookup nv0 c.name = none) →
    (∀ c ∈ cols, dictLookup tfc0 c.name = none) →
    (cols.map ColSpec.name).Nodup →
    createTableAux now nv0 tfc0 cols =
      match nvSpec now cols with
      | Except.error e => Except.error e
      | Except.ok nvs => Except.ok (nv0 ++ nvs, tfc0 ++ tfcSpec cols) := by
  intro cols
  induction cols with
  | nil => intro nv0 tfc0 _ _ _; simp [createTableAux, nvSpec, tfcSpec]
  | cons c rest ih =>
    intro nv0 tfc0 hnv htfc hnodup
    simp only [List.map_cons, List.nodup_cons] at hnodup
    have hfreshName : ∀ c' ∈ rest, c.name ≠ c'.name := by
      intro c' hc' he
      exact hnodup.1 (he ▸ List.mem_map.mpr ⟨c', hc', rfl⟩)
    have htfc' : ∀ c' ∈ rest,
        dictLookup (tfc0 ++ [(c.name, c.ty)]) c'.name = none := by
      intro c' hc'
      rw [dictLookup_append, htfc c' (List.mem_cons_of_mem _ hc')]
      simp [dictLookup, hfreshName c' hc']
    have hsetTfc : dictSet tfc0 c.name c.ty = tfc0 ++ [(c.name, c.ty)] :=
      dictSet_fresh _ _ _ (htfc c (List.mem_cons_self _ _))
    cases hval : c.value with
    | none =>
      have hrec := ih nv0 (tfc0 ++ [(c.name, c.ty)])
        (fun c' hc' => hnv c' (List.mem_cons_of_mem _ hc')) htfc' hnodup.2
      simp only [createTableAux, hval, hsetTfc, hrec, nvSpec, tfcSpec, List.map_cons]
      cases nvSpec now rest <;> simp [tfcSpec, List.append_assoc]
    | some vo =>
      have hsetNv : ∀ (x : Option Value), dictSet nv0 c.name x = nv0 ++ [(c.name, x)] :=
        fun x => dictSet_fresh _ _ _ (hnv c (List.mem_cons_self _ _))
      have hnv' : ∀ (x : Option Value), ∀ c' ∈ rest,
          dictLookup (nv0 ++ [(c.name, x)]) c'.name = none := by
        intro x c' hc'
        rw [dictLookup_append, hnv c' (List.mem_cons_of_mem _ hc')]
        simp [dictLookup, hfreshName c' hc']
      cases vo with
      | none =>
        have hrec := ih (nv0 ++ [(c.name, none)]) (tfc0 ++ [(c.name, c.ty)])
          (hnv' none) htfc' hnodup.2
        simp only [createTableAux, hval, hsetTfc, hsetNv, hrec, nvSpec, tfcSpec, List.map_cons]
        cases nvSpec now rest <;> simp [tfcSpec, List.append_assoc]
      | some v =>
        cases htf : typeFunc now c.ty v with
        | error e =>
          simp [createTableAux, hval, htf, nvSpec]
        | ok w =>
          have hrec := ih (nv0 ++ [(c.name, some w)]) (tfc0 ++ [(c.name, c.ty)])
            (hnv' (some w)) htfc' hnodup.2
          simp only [createTableAux, hval, htf, hsetTfc, hsetNv, hrec, nvSpec, tfcSpec,
            List.map_cons]
          cases nvSpec now rest <;> simp [tfcSpec, List.append_assoc]

theorem createTable_eq (now : PyDateTime) (cols : List ColSpec)
    (hnodup : (cols.map ColSpec.name).Nodup) :
    createTable now cols =
      match nvSpec now cols with
      | Except.error e => Except.error e
      | Except.ok nvs => Except.ok (nvs, tfcSpec cols) := by
  have h := createTableAux_eq now cols [] []
    (fun _ _ => rfl) (fun _ _ => rfl) hnodup
  rw [createTable, h]
  cases nvSpec now cols <;> simp

theorem nvSpec_keys_sublist (now : PyDateTime) :
    ∀ (cols : List ColSpec) (nvs : NV), nvSpec now cols = Except.ok nvs →
    (nvs.map Prod.fst).Sublist (cols.map ColSpec.name) := by
  intro cols
  induction cols with
  | nil =>
    intro nvs h
    simp only [nvSpec, Except.ok.injEq] at h
    subst h
    simp
  | cons c rest ih =>
    intro nvs h
    cases hval : c.value with
    | none =>
      simp only [nvSpec, hval] at h
      exact (ih nvs h).cons _
    | some vo =>
      cases vo with
      | none =>
        simp only [nvSpec, hval] at h
        cases hr : nvSpec now rest with
        | error e => simp only [hr] at h; cases h
        | ok nvs' =>
          simp only [hr] at h
          cases h
          exact (ih nvs' hr).cons₂ _
      | some v =>
        simp only [nvSpec, hval] at h
        cases htf : typeFunc now c.ty v with
        | error e => simp only [htf] at h; cases h
        | ok w =>
          simp only [htf] at h
          cases hr : nvSpec now rest with
          | error e => simp only [hr] at h; cases h
          | ok nvs' =>
            simp only [hr] at h
            cases h
            exact (ih nvs' hr).cons₂ _

theorem nvSpec_canonical (now : PyDateTime) :
    ∀ (cols : List ColSpec) (nvs : NV), nvSpec now cols = Except.ok nvs →
    (cols.map ColSpec.name).Nodup →
    ∀ p ∈ nvs, (dictLookup (tfcSpec cols) p.1).isSome ∧
      ∀ v, p.2 = some v →
        ∃ t, dictLookup (tfcSpec cols) p.1 = some t ∧ typeFunc now t v = Except.ok v := by
  intro cols
  induction cols with
  | nil =>
    intro nvs h
    simp only [nvSpec, Except.ok.injEq] at h
    subst h
    intro _ p hp
    simp at hp
  | cons c rest ih =>
    intro nvs h hnodup
    simp only [List.map_cons, List.nodup_cons] at hnodup
    have hlift : ∀ p : String × Option Value, p ∈ nvs → p.1 ∈ (rest.map ColSpec.name) →
        dictLookup (tfcSpec (c :: rest)) p.1 = dictLookup (tfcSpec rest) p.1 := by
      intro p _ hmem
      have hne : c.name ≠ p.1 := fun he => hnodup.1 (he ▸ hmem)
      simp [tfcSpec, dictLookup, hne]
    cases hval : c.value with
    | none =>
      simp only [nvSpec, hval] at h
      intro p hp
      have hmem : p.1 ∈ rest.map ColSpec.name :=
        (nvSpec_keys_sublist now rest nvs h).mem (List.mem_map.mpr ⟨p, hp, rfl⟩)
      have hprev := ih nvs h hnodup.2 p hp
      refine ⟨?_, ?_⟩
      · rw [show dictLookup (tfcSpec (c :: rest)) p.1 = dictLookup (tfcSpec rest) p.1 from
          hlift p hp hmem]
        exact hprev.1
      · intro v hv
        obtain ⟨t, ht, hok⟩ := hprev.2 v hv
        exact ⟨t, by rw [hlift p hp hmem]; exact ht, hok⟩
    | some vo =>
      have head_case : ∀ (x : Option Value) (nvs' : NV), nvs = (c.name, x) :: nvs' →
          nvSpec now rest = Except.ok nvs' →
          (∀ v, x = some v → typeFunc now c.ty v = Except.ok v) →
          ∀ p ∈ nvs, (dictLookup (tfcSpec (c :: rest)) p.1).isSome ∧
            ∀ v, p.2 = some v →
              ∃ t, dictLookup (tfcSpec (c :: rest)) p.1 = some t ∧
                typeFunc now t v = Except.ok v := by
        intro x nvs' hnvs hrest hfix p hp
        subst hnvs
        rcases List.mem_cons.mp hp with hp | hp
        · subst hp
          refine ⟨by simp [tfcSpec, dictLookup], ?_⟩
          intro v hv
          exact ⟨c.ty, by simp [tfcSpec, dictLookup], hfix v hv⟩
        · have hmem : p.1 ∈ rest.map ColSpec.name :=
            (nvSpec_keys_sublist now rest nvs' hrest).mem (List.mem_map.mpr ⟨p, hp, rfl⟩)
          have hne : c.name ≠ p.1 := fun he => hnodup.1 (he ▸ hmem)
          have hprev := ih nvs' hrest hnodup.2 p hp
          refine ⟨?_, ?_⟩
          · simpa [tfcSpec, dictLookup, hne] using hprev.1
          · intro v hv
            obtain ⟨t, ht, hok⟩ := hprev.2 v hv
            exact ⟨t, by simpa [tfcSpec, dictLookup, hne] using ht, hok⟩
      cases vo with
      | none =>
        simp only [nvSpec, hval] at h
        cases hr : nvSpec now rest with
        | error e => simp only [hr] at h; cases h
        | ok nvs' =>
          simp only [hr] at h
          cases h
          exact head_case none nvs' rfl hr (fun v hv => by cases hv)
      | some v =>
        simp only [nvSpec, hval] at h
        cases htf : typeFunc now c.ty v with
        | error e => simp only [htf] at h; cases h
        | ok w =>
          simp only [htf] at h
          cases hr : nvSpec now rest with
          | error e => simp only [hr] at h; cases h
          | ok nvs' =>
            simp only [hr] at h
            cases h
            exact head_case (some w) nvs' rfl hr
              (fun v' hv' => by
                cases hv'
                exact typeFunc_idem htf)

/-- What `create_table` guarantees about its outputs (for distinct column
names): the type table is the declared one and `new_values` is consistent
with it. -/
theorem createTable_nvOk {now : PyDateTime} {cols : List ColSpec} {nv : NV} {tfc : TFC}
    (hnodup : (cols.map ColSpec.name).Nodup)
    (h : createTable now cols = Except.ok (nv, tfc)) :
    tfc = tfcSpec cols ∧ nvOk now tfc nv := by
  rw [createTable_eq now cols hnodup] at h
  cases hs : nvSpec now cols with
  | error e =>
    simp only [hs] at h
    cases h
  | ok nvs =>
    simp only [hs, Except.ok.injEq, Prod.mk.injEq] at h
    obtain ⟨hnv, htfc⟩ := h
    subst hnv
    subst htfc
    refine ⟨rfl, ?_, ?_⟩
    · exact hnodup.sublist (nvSpec_keys_sublist now cols nvs hs)
    · intro p hp
      exact nvSpec_canonical now cols nvs hs hnodup p hp

/- ---------- where_keys characterization ---------- -/

theorem whereKeysArgs_eq (cols : List String) (nv : NV) (keys : List String)
    (h : ∀ k ov, dictLookup nv k = some ov → k ∈ cols) :
    whereKeysArgs cols nv keys = Except.ok (keyEqs keys nv) := by
  induction keys with
  | nil => rfl
  | cons k ks ih =>
    cases hk : dictLookup nv k with
    | none => simp only [whereKeysArgs, hk, keyEqs, List.filterMap_cons, ih, Option.map_none']
    | some ov =>
      have hmem : k ∈ cols := h k ov hk
      have hc : cols.contains k = true := List.elem_iff.mpr hmem
      simp only [whereKeysArgs, hk, whereColumnHelper, hc, if_pos, ih, keyEqs,
        List.filterMap_cons, Option.map_some']

theorem nvOk_lookup_mem_cols {now : PyDateTime} {tfc : TFC} {nv : NV} (h : nvOk now tfc nv) :
    ∀ k ov, dictLookup nv k = some ov → k ∈ tfc.map Prod.fst := by
  intro k ov hk
  have hp := (h.2 (k, ov) (dictLookup_mem hk)).1
  obtain ⟨t, ht⟩ := Option.isSome_iff_exists.mp hp
  exact mem_keys_of_dictLookup ht

theorem whereClause_nil_filter (cols : List String) (keys : List String) (nv : NV)
    (h : ∀ k ov, dictLookup nv k = some ov → k ∈ cols) :
    whereClause cols keys nv FDict.nil = Except.ok (mkWhere (keyEqs keys nv)) := by
  unfold whereClause
  rw [whereKeysArgs_eq cols nv keys h]
  simp [FDict.isNil]

/- ---------- format_rows success on well-shaped rows ---------- -/

theorem formatRow_ok (now : PyDateTime) (tfc : TFC) :
    ∀ row : Row,
    (∀ p ∈ row, (dictLookup tfc p.1).isSome) →
    (∀ p ∈ row, ∀ v, p.2 = some v →
      ∃ t, dictLookup tfc p.1 = some t ∧ typeFunc now t v = Except.ok v) →
    ∃ fr, formatRow now tfc row = Except.ok fr := by
  intro row
  induction row with
  | nil => intro _ _; exact ⟨[], rfl⟩
  | cons p rest ih =>
    intro hkeys hvals
    obtain ⟨c, ov⟩ := p
    obtain ⟨fr, hfr⟩ := ih (fun q hq => hkeys q (List.mem_cons_of_mem _ hq))
      (fun q hq => hvals q (List.mem_cons_of_mem _ hq))
    cases ov with
    | none =>
      obtain ⟨t, ht⟩ := Option.isSome_iff_exists.mp (hkeys (c, none) (List.mem_cons_self _ _))
      exact ⟨(c, none) :: fr, by simp only [formatRow, ht, hfr]⟩
    | some v =>
      obtain ⟨t, ht, hok⟩ := hvals (c, some v) (List.mem_cons_self _ _) v rfl
      exact ⟨(c, some v) :: fr, by simp only [formatRow, ht, hok, hfr]⟩

theorem formatRow_ok_of_wf {now : PyDateTime} {tfc : TFC} {row : Row}
    (h : rowWf now tfc row) : ∃ fr, formatRow now tfc row = Except.ok fr := by
  refine formatRow_ok now tfc row ?_ h.2
  intro p hp
  have : p.1 ∈ tfc.map Prod.fst := h.1 ▸ List.mem_map.mpr ⟨p, hp, rfl⟩
  exact dictLookup_isSome_of_mem_keys this

theorem formatRows_ok {now : PyDateTime} {tfc : TFC} :
    ∀ rows : List Row, (∀ r ∈ rows, rowWf now tfc r) →
    ∃ frs, formatRows now tfc rows = Except.ok frs := by
  intro rows
  induction rows with
  | nil => intro _; exact ⟨[], rfl⟩
  | cons r rest ih =>
    intro h
    obtain ⟨fr, hfr⟩ := formatRow_ok_of_wf (h r (List.mem_cons_self _ _))
    obtain ⟨frs, hfrs⟩ := ih (fun q hq => h q (List.mem_cons_of_mem _ hq))
    exact ⟨fr :: frs, by simp only [formatRows, hfr, hfrs]⟩

/- ---------- unfolding run in present mode, empty filter, no check mode ---------- -/

theorem run_present_eq (now : PyDateTime) (req : Request) (db : DB) (nv : NV) (tfc : TFC)
    (hmode : req.state = Mode.present) (hfil : req.filter = FDict.nil)
    (hck : req.checkMode = false)
    (hct : createTable now req.columns = Except.ok (nv, tfc))
    (hnvcols : ∀ k ov, dictLookup nv k = some ov → k ∈ tfc.map Prod.fst) :
    run now req db =
      (let wc := mkWhere (keyEqs req.keys nv)
      let stmt : SelectStmt := ⟨req.distinct, false, wc⟩
      let rowsAfter := execSelect stmt db
      let changed : Bool := if rowsAfter.length < 1 then true else compareRows nv rowsAfter
      if changed then
        let sets := nv.filter (fun p => !(decide (p.1 ∈ req.keys)))
        let step :=
          if rowsAfter.length < 1 then
            (execInsert (tfc.map Prod.fst) nv db, [Stmt.read stmt, Stmt.insert nv])
          else (execUpdate wc sets db, [Stmt.read stmt, Stmt.update wc sets])
        let rows2 := execSelect stmt step.1
        ⟨(formatRows now tfc rows2).map (fun fr => (changed, some fr)), step.1,
          step.2 ++ [Stmt.read stmt]⟩
      else
        ⟨(formatRows now tfc rowsAfter).map (fun fr => (changed, some fr)), db,
          [Stmt.read stmt]⟩ : RunResult) := by
  unfold run
  rw [hct]
  simp only
  rw [hfil, whereClause_nil_filter (tfc.map Prod.fst) req.keys nv hnvcols]
  simp only [hmode, hck]
  rfl

/- ---------- convergence of the present-mode write ---------- -/

theorem evalWhere_keyEqs_of_agrees {keys : List String} {nv : NV} {row : Row}
    (h : agreesNv nv row) : evalWhere (mkWhere (keyEqs keys nv)) row = true :=
  (evalWhere_keyEqs_iff keys nv row).mpr (fun k _ ov hov => h (k, ov) (dictLookup_mem hov))

/-- The UPDATE `update_rows` performs turns every matched row into a row
that agrees with all of `new_values`: non-key columns are set outright and
key columns already satisfied the key-equality WHERE clause. -/
theorem agreesNv_rowUpdate {now : PyDateTime} {tfc : TFC} {nv : NV} {keys : List String}
    {row : Row} (hnvok : nvOk now tfc nv)
    (hkeys : row.map Prod.fst = tfc.map Prod.fst)
    (hmatch : evalWhere (mkWhere (keyEqs keys nv)) row = true) :
    agreesNv nv (rowUpdate (nv.filter (fun p => !(decide (p.1 ∈ keys)))) row) := by
  intro p hp
  have hlk : dictLookup nv p.1 = some p.2 := mem_dictLookup_of_nodup hnvok.1 hp
  by_cases hk : p.1 ∈ keys
  · have hnone : dictLookup (nv.filter (fun p => !(decide (p.1 ∈ keys)))) p.1 = none := by
      rw [dictLookup_filter_notkeys, if_pos hk]
    rw [rowGet_rowUpdate_none row hnone]
    exact (evalWhere_keyEqs_iff keys nv row).mp hmatch p.1 hk p.2 hlk
  · have hsome : dictLookup (nv.filter (fun p => !(decide (p.1 ∈ keys)))) p.1 = some p.2 := by
      rw [dictLookup_filter_notkeys, if_neg hk, hlk]
    have hmem : p.1 ∈ row.map Prod.fst := by
      rw [hkeys]
      have := (hnvok.2 p hp).1
      obtain ⟨t, ht⟩ := Option.isSome_iff_exists.mp this
      exact mem_keys_of_dictLookup ht
    exact rowGet_rowUpdate_some row hsome hmem

/-- The UPDATE leaves every key column unchanged (keys are excluded from
SET), so a row matches the key-equality clause after the update iff it did
before. -/
theorem evalWhere_keyEqs_rowUpdate (keys : List String) (nv : NV) (row : Row) :
    evalWhere (mkWhere (keyEqs keys nv))
        (rowUpdate (nv.filter (fun p => !(decide (p.1 ∈ keys)))) row) =
      evalWhere (mkWhere (keyEqs keys nv)) row := by
  apply bool_eq_of_iff
  rw [evalWhere_keyEqs_iff, evalWhere_keyEqs_iff]
  have hget : ∀ k ∈ keys,
      rowGet (rowUpdate (nv.filter (fun p => !(decide (p.1 ∈ keys)))) row) k = rowGet row k := by
    intro k hk
    exact rowGet_rowUpdate_none row (by rw [dictLookup_filter_notkeys, if_pos hk])
  constructor
  · intro h k hk ov hov
    rw [← hget k hk]
    exact h k hk ov hov
  · intro h k hk ov hov
    rw [hget k hk]
    exact h k hk ov hov

/-- The row INSERT creates agrees with all of `new_values`. -/
theorem agreesNv_newRowOf {now : PyDateTime} {tfc : TFC} {nv : NV} (hnvok : nvOk now tfc nv) :
    agreesNv nv (newRowOf (tfc.map Prod.fst) nv) := by
  intro p hp
  have hlk : dictLookup nv p.1 = some p.2 := mem_dictLookup_of_nodup hnvok.1 hp
  have hmem : p.1 ∈ tfc.map Prod.fst := by
    have := (hnvok.2 p hp).1
    obtain ⟨t, ht⟩ := Option.isSome_iff_exists.mp this
    exact mem_keys_of_dictLookup ht
  rw [rowGet_newRowOf nv hmem, hlk]

/-- Updating with coerced declared values keeps a row well shaped. -/
theorem rowWf_rowUpdate {now : PyDateTime} {tfc : TFC} {nv : NV} {keys : List String}
    {row : Row} (hnvok : nvOk now tfc nv) (hrow : rowWf now tfc row) :
    rowWf now tfc (rowUpdate (nv.filter (fun p => !(decide (p.1 ∈ keys)))) row) := by
  constructor
  · rw [rowUpdate_keys]
    exact hrow.1
  · intro q hq v hv
    simp only [rowUpdate, List.mem_map] at hq
    obtain ⟨p, hp, hq⟩ := hq
    cases hs : dictLookup (nv.filter (fun p => !(decide (p.1 ∈ keys)))) p.1 with
    | some ov =>
      rw [hs] at hq
      subst hq
      simp only at hv
      subst hv
      rw [dictLookup_filter_notkeys] at hs
      by_cases hk : p.1 ∈ keys
      · rw [if_pos hk] at hs; cases hs
      · rw [if_neg hk] at hs
        have := (hnvok.2 (p.1, some v) (dictLookup_mem hs)).2 v rfl
        exact this
    | none =>
      rw [hs] at hq
      subst hq
      exact hrow.2 p hp v hv

/-- The freshly inserted row is well shaped. -/
theorem rowWf_newRowOf {now : PyDateTime} {tfc : TFC} {nv : NV} (hnvok : nvOk now tfc nv) :
    rowWf now tfc (newRowOf (tfc.map Prod.fst) nv) := by
  constructor
  · exact newRowOf_keys _ _
  · intro q hq v hv
    simp only [newRowOf, List.mem_map] at hq
    obtain ⟨c, _, hq⟩ := hq
    subst hq
    simp only at hv
    cases hs : dictLookup nv c with
    | some ov =>
      rw [hs] at hv
      subst hv
      exact (hnvok.2 (c, some v) (dictLookup_mem hs)).2 v rfl
    | none => rw [hs] at hv; cases hv

/-- A present-mode invocation on a database whose selected rows are
nonempty and all agree with `new_values` reports `changed = false` and
leaves the database untouched. -/
theorem run_present_converged (now : PyDateTime) (req : Request) (db1 : DB) (nv : NV)
    (tfc : TFC)
    (hmode : req.state = Mode.present) (hfil : req.filter = FDict.nil)
    (hck : req.checkMode = false)
    (hct : createTable now req.columns = Except.ok (nv, tfc))
    (hnvcols : ∀ k ov, dictLookup nv k = some ov → k ∈ tfc.map Prod.fst)
    (hdb1 : dbWf now tfc db1)
    (hne : execSelect ⟨req.distinct, false, mkWhere (keyEqs req.keys nv)⟩ db1 ≠ [])
    (hagree : ∀ r ∈ execSelect ⟨req.distinct, false, mkWhere (keyEqs req.keys nv)⟩ db1,
      agreesNv nv r) :
    ∃ r2 tr2, run now req db1 = ⟨Except.ok (false, r2), db1, tr2⟩ := by
  have hrun := run_present_eq now req db1 nv tfc hmode hfil hck hct hnvcols
  have hlen : ¬ (execSelect ⟨req.distinct, false, mkWhere (keyEqs req.keys nv)⟩ db1).length < 1 := by
    intro hl
    exact hne (List.length_eq_zero.mp (Nat.lt_one_iff.mp hl))
  have hcmp : compareRows nv
      (execSelect ⟨req.distinct, false, mkWhere (keyEqs req.keys nv)⟩ db1) = false :=
    (compareRows_eq_false_iff nv _).mpr (fun row hrow p hp => hagree row hrow p hp)
  obtain ⟨frs, hfrs⟩ := formatRows_ok
    (execSelect ⟨req.distinct, false, mkWhere (keyEqs req.keys nv)⟩ db1)
    (fun r hr => hdb1 r (execSelect_mem hr).1)
  refine ⟨some frs, [Stmt.read ⟨req.distinct, false, mkWhere (keyEqs req.keys nv)⟩], ?_⟩
  rw [hrun]
  simp [hne, hcmp, hfrs]
  rfl

/-- C1: for a valid present-mode request (empty advanced filter — the
module documents `filter` for select/count — distinct column names,
successfully coerced declared values) outside check mode, on any
well-shaped database, the first invocation succeeds and a second
invocation on the resulting database reports `changed = false` and
changes nothing, so `changed = true` is reported at most once. -/
theorem c1_present_idempotent (now : PyDateTime) (req : Request) (db : DB) (nv : NV)
    (tfc : TFC)
    (hmode : req.state = Mode.present) (hfil : req.filter = FDict.nil)
    (hck : req.checkMode = false)
    (hnodup : (req.columns.map ColSpec.name).Nodup)
    (hct : createTable now req.columns = Except.ok (nv, tfc))
    (hdb : dbWf now tfc db) :
    ∃ c1 r1 db1 tr1, run now req db = ⟨Except.ok (c1, r1), db1, tr1⟩ ∧
      ∃ r2 tr2, run now req db1 = ⟨Except.ok (false, r2), db1, tr2⟩ := by
  obtain ⟨-, hnvok⟩ := createTable_nvOk hnodup hct
  have hnvcols := nvOk_lookup_mem_cols hnvok
  have hrun := run_present_eq now req db nv tfc hmode hfil hck hct hnvcols
  by_cases hlen :
      (execSelect ⟨req.distinct, false, mkWhere (keyEqs req.keys nv)⟩ db).length < 1
  · -- no matching row: INSERT, and the new row satisfies the key equalities
    have hselnil : execSelect ⟨req.distinct, false, mkWhere (keyEqs req.keys nv)⟩ db = [] :=
      List.length_eq_zero.mp (Nat.lt_one_iff.mp hlen)
    have hnomatch := execSelect_eq_nil_iff.mp hselnil
    have hdb1 : dbWf now tfc (execInsert (tfc.map Prod.fst) nv db) := by
      intro r hr
      simp only [execInsert, List.mem_append, List.mem_singleton] at hr
      rcases hr with hr | hr
      · exact hdb r hr
      · subst hr
        exact rowWf_newRowOf hnvok
    have hnew_mem : newRowOf (tfc.map Prod.fst) nv ∈ execInsert (tfc.map Prod.fst) nv db := by
      simp [execInsert]
    have hmatchNew : evalWhere (mkWhere (keyEqs req.keys nv)) (newRowOf (tfc.map Prod.fst) nv)
        = true := evalWhere_keyEqs_of_agrees (agreesNv_newRowOf hnvok)
    have hne2 : execSelect ⟨req.distinct, false, mkWhere (keyEqs req.keys nv)⟩
        (execInsert (tfc.map Prod.fst) nv db) ≠ [] :=
      execSelect_ne_nil hnew_mem hmatchNew
    have hagree2 : ∀ r ∈ execSelect ⟨req.distinct, false, mkWhere (keyEqs req.keys nv)⟩
        (execInsert (tfc.map Prod.fst) nv db), agreesNv nv r := by
      intro r hr
      obtain ⟨hrdb1, hmatch⟩ := execSelect_mem hr
      simp only [execInsert, List.mem_append, List.mem_singleton] at hrdb1
      rcases hrdb1 with hrdb | hrdb
      · rw [hnomatch r hrdb] at hmatch
        cases hmatch
      · subst hrdb
        exact agreesNv_newRowOf hnvok
    obtain ⟨frs1, hfrs1⟩ := formatRows_ok
      (execSelect ⟨req.distinct, false, mkWhere (keyEqs req.keys nv)⟩
        (execInsert (tfc.map Prod.fst) nv db))
      (fun r hr => hdb1 r (execSelect_mem hr).1)
    refine ⟨true, some frs1, execInsert (tfc.map Prod.fst) nv db,
      [Stmt.read ⟨req.distinct, false, mkWhere (keyEqs req.keys nv)⟩, Stmt.insert nv,
       Stmt.read ⟨req.distinct, false, mkWhere (keyEqs req.keys nv)⟩], ?_, ?_⟩
    · rw [hrun]
      simp [hselnil, hfrs1]
      rfl
    · exact run_present_converged now req _ nv tfc hmode hfil hck hct hnvcols hdb1 hne2 hagree2
  · -- at least one matching row
    cases hch : compareRows nv
        (execSelect ⟨req.distinct, false, mkWhere (keyEqs req.keys nv)⟩ db) with
    | false =>
      -- already converged: no write, database unchanged
      have hagree : ∀ r ∈ execSelect ⟨req.distinct, false, mkWhere (keyEqs req.keys nv)⟩ db,
          agreesNv nv r :=
        fun row hrow p hp => (compareRows_eq_false_iff nv _).mp hch row hrow p hp
      have hne : execSelect ⟨req.distinct, false, mkWhere (keyEqs req.keys nv)⟩ db ≠ [] := by
        intro h
        exact hlen (by rw [h]; simp)
      obtain ⟨frs, hfrs⟩ := formatRows_ok
        (execSelect ⟨req.distinct, false, mkWhere (keyEqs req.keys nv)⟩ db)
        (fun r hr => hdb r (execSelect_mem hr).1)
      refine ⟨false, some frs, db,
        [Stmt.read ⟨req.distinct, false, mkWhere (keyEqs req.keys nv)⟩], ?_, ?_⟩
      · rw [hrun]
        simp [hne, hch, hfrs]
        rfl
      · exact run_present_converged now req db nv tfc hmode hfil hck hct hnvcols hdb hne hagree
    | true =>
      -- some row differs: UPDATE all matched rows
      have hnonnil : execSelect ⟨req.distinct, false, mkWhere (keyEqs req.keys nv)⟩ db ≠ [] := by
        intro h
        exact hlen (by rw [h]; simp)
      have hdb1 : dbWf now tfc (execUpdate (mkWhere (keyEqs req.keys nv))
          (nv.filter (fun p => !(decide (p.1 ∈ req.keys)))) db) := by
        intro r' hr'
        simp only [execUpdate, List.mem_map] at hr'
        obtain ⟨r, hrdb, hr'⟩ := hr'
        by_cases he : evalWhere (mkWhere (keyEqs req.keys nv)) r = true
        · rw [if_pos he] at hr'
          subst hr'
          exact rowWf_rowUpdate hnvok (hdb r hrdb)
        · rw [if_neg he] at hr'
          subst hr'
          exact hdb r hrdb
      have hagree2 : ∀ r' ∈ execSelect ⟨req.distinct, false, mkWhere (keyEqs req.keys nv)⟩
          (execUpdate (mkWhere (keyEqs req.keys nv))
            (nv.filter (fun p => !(decide (p.1 ∈ req.keys)))) db), agreesNv nv r' := by
        intro r' hr'
        obtain ⟨hrdb1, hmatch⟩ := execSelect_mem hr'
        simp only [execUpdate, List.mem_map] at hrdb1
        obtain ⟨r, hrdb, hr'eq⟩ := hrdb1
        by_cases he : evalWhere (mkWhere (keyEqs req.keys nv)) r = true
        · rw [if_pos he] at hr'eq
          subst hr'eq
          exact agreesNv_rowUpdate hnvok (hdb r hrdb).1 he
        · rw [if_neg he] at hr'eq
          subst hr'eq
          exact absurd hmatch he
      have hne2 : execSelect ⟨req.distinct, false, mkWhere (keyEqs req.keys nv)⟩
          (execUpdate (mkWhere (keyEqs req.keys nv))
            (nv.filter (fun p => !(decide (p.1 ∈ req.keys)))) db) ≠ [] := by
        obtain ⟨r0, hr0⟩ := List.exists_mem_of_ne_nil _ hnonnil
        obtain ⟨hr0db, hr0m⟩ := execSelect_mem hr0
        have hmem1 : rowUpdate (nv.filter (fun p => !(decide (p.1 ∈ req.keys)))) r0 ∈
            execUpdate (mkWhere (keyEqs req.keys nv))
              (nv.filter (fun p => !(decide (p.1 ∈ req.keys)))) db := by
          simp only [execUpdate, List.mem_map]
          exact ⟨r0, hr0db, by rw [if_pos hr0m]⟩
        exact execSelect_ne_nil hmem1
          (by rw [evalWhere_keyEqs_rowUpdate]; exact hr0m)
      obtain ⟨frs1, hfrs1⟩ := formatRows_ok
        (execSelect ⟨req.distinct, false, mkWhere (keyEqs req.keys nv)⟩
          (execUpdate (mkWhere (keyEqs req.keys nv))
            (nv.filter (fun p => !(decide (p.1 ∈ req.keys)))) db))
        (fun r hr => hdb1 r (execSelect_mem hr).1)
      refine ⟨true, some frs1,
        execUpdate (mkWhere (keyEqs req.keys nv))
          (nv.filter (fun p => !(decide (p.1 ∈ req.keys)))) db,
        [Stmt.read ⟨req.distinct, false, mkWhere (keyEqs req.keys nv)⟩,
         Stmt.update (mkWhere (keyEqs req.keys nv))
           (nv.filter (fun p => !(decide (p.1 ∈ req.keys)))),
         Stmt.read ⟨req.distinct, false, mkWhere (keyEqs req.keys nv)⟩], ?_, ?_⟩
      · rw [hrun]
        simp [hnonnil, hch, hfrs1]
        rfl
      · exact run_present_converged now req _ nv tfc hmode hfil hck hct hnvcols hdb1 hne2 hagree2

/- ---------- general shape of a run's trace and final database ---------- -/

theorem exceptMap_ok_fst {c : Bool} {X : Except Err (List Row)} {b : Bool}
    {rows : Option (List Row)}
    (h : Except.map (fun fr => (c, some fr)) X = Except.ok (b, rows)) : b = c := by
  cases X with
  | error e => cases h
  | ok frs =>
    simp only [Except.map, Except.ok.injEq, Prod.mk.injEq] at h
    exact h.1.symm

/-- Every statement a run executes is either the one read statement the
run builds — DISTINCT iff the request asked for it, COUNT iff the mode is
count — or a mutating statement, and mutating statements occur only
outside check mode and outside the pure-read modes. -/
theorem run_trace_mem (now : PyDateTime) (req : Request) (db : DB) (s : Stmt)
    (hs : s ∈ (run now req db).trace) :
    (∃ wc, s = Stmt.read ⟨req.distinct, decide (req.state = Mode.count), wc⟩) ∨
    (s.isMutating = true ∧ req.checkMode = false ∧
      req.state ≠ Mode.select ∧ req.state ≠ Mode.count) := by
  unfold run at hs
  cases hct : createTable now req.columns with
  | error e =>
    simp only [hct] at hs
    simp at hs
  | ok p =>
    obtain ⟨nv, tfc⟩ := p
    simp only [hct] at hs
    cases hwc : whereClause (tfc.map Prod.fst) req.keys nv req.filter with
    | error e =>
      simp only [hwc] at hs
      simp at hs
    | ok wc =>
      simp only [hwc] at hs
      cases hmode : req.state <;> simp only [hmode] at hs
      case select =>
        simp only [List.mem_singleton] at hs
        subst hs
        exact Or.inl ⟨wc, by simp [hmode]⟩
      case count =>
        simp only [List.mem_singleton] at hs
        subst hs
        exact Or.inl ⟨wc, by simp [hmode]⟩
      case absent =>
        cases hck : req.checkMode with
        | true =>
          rw [hck, Bool.not_true, Bool.and_false, if_neg (by simp)] at hs
          simp only [List.mem_singleton] at hs
          subst hs
          exact Or.inl ⟨wc, by simp [hmode]⟩
        | false =>
          rw [hck, Bool.not_false, Bool.and_true] at hs
          by_cases hlen : (execSelect
              ⟨req.distinct, decide (Mode.absent = Mode.count), wc⟩ db).length < 1
          · rw [if_pos hlen, if_neg (by simp)] at hs
            simp only [List.mem_singleton] at hs
            subst hs
            exact Or.inl ⟨wc, by simp [hmode]⟩
          · rw [if_neg hlen, if_pos rfl] at hs
            simp only [List.mem_append, List.mem_singleton] at hs
            rcases hs with hs | hs
            · subst hs
              exact Or.inl ⟨wc, by simp [hmode]⟩
            · subst hs
              exact Or.inr ⟨rfl, rfl, by simp [hmode], by simp [hmode]⟩
      case insert =>
        cases hck : req.checkMode with
        | true =>
          rw [hck, if_pos rfl] at hs
          simp only [List.mem_append, List.mem_singleton] at hs
          rcases hs with hs | hs
          · subst hs
            exact Or.inl ⟨wc, by simp [hmode]⟩
          · subst hs
            exact Or.inl ⟨wc, by simp [hmode]⟩
        | false =>
          rw [hck, if_neg (by simp)] at hs
          simp only [List.mem_append, List.mem_singleton] at hs
          rcases hs with (hs | hs) | hs
          · subst hs
            exact Or.inl ⟨wc, by simp [hmode]⟩
          · subst hs
            exact Or.inr ⟨rfl, rfl, by simp [hmode], by simp [hmode]⟩
          · subst hs
            exact Or.inl ⟨wc, by simp [hmode]⟩
      case present =>
        cases hck : req.checkMode with
        | true =>
          rw [hck, if_pos rfl] at hs
          simp only [List.mem_singleton] at hs
          subst hs
          exact Or.inl ⟨wc, by simp [hmode]⟩
        | false =>
          rw [hck, if_neg (by simp)] at hs
          by_cases hlen : (execSelect
              ⟨req.distinct, decide (Mode.present = Mode.count), wc⟩ db).length < 1
          · rw [if_pos hlen, if_pos hlen, if_pos rfl] at hs
            simp only [List.mem_append, List.mem_singleton] at hs
            rcases hs with (hs | hs) | hs
            · subst hs
              exact Or.inl ⟨wc, by simp [hmode]⟩
            · subst hs
              exact Or.inr ⟨rfl, rfl, by simp [hmode], by simp [hmode]⟩
            · subst hs
              exact Or.inl ⟨wc, by simp [hmode]⟩
          · rw [if_neg hlen, if_neg hlen] at hs
            by_cases hcmp : compareRows nv (execSelect
                ⟨req.distinct, decide (Mode.present = Mode.count), wc⟩ db) = true
            · rw [if_pos hcmp] at hs
              simp only [List.mem_append, List.mem_singleton] at hs
              rcases hs with (hs | hs) | hs
              · subst hs
                exact Or.inl ⟨wc, by simp [hmode]⟩
              · subst hs
                exact Or.inr ⟨rfl, rfl, by simp [hmode], by simp [hmode]⟩
              · subst hs
                exact Or.inl ⟨wc, by simp [hmode]⟩
            · rw [if_neg hcmp] at hs
              simp only [List.mem_singleton] at hs
              subst hs
              exact Or.inl ⟨wc, by simp [hmode]⟩

/-- In check mode and in the pure-read modes the database is returned
untouched. -/
theorem run_db_unchanged (now : PyDateTime) (req : Request) (db : DB)
    (h : req.checkMode = true ∨ req.state = Mode.select ∨ req.state = Mode.count) :
    (run now req db).db = db := by
  unfold run
  cases hct : createTable now req.columns with
  | error e => rfl
  | ok p =>
    obtain ⟨nv, tfc⟩ := p
    simp only
    cases hwc : whereClause (tfc.map Prod.fst) req.keys nv req.filter with
    | error e => rfl
    | ok wc =>
      simp only
      cases hmode : req.state with
      | select => rfl
      | count => rfl
      | absent =>
        have hck : req.checkMode = true := by
          rcases h with h | h | h
          · exact h
          · rw [hmode] at h; cases h
          · rw [hmode] at h; cases h
        simp [hck]
      | insert =>
        have hck : req.checkMode = true := by
          rcases h with h | h | h
          · exact h
          · rw [hmode] at h; cases h
          · rw [hmode] at h; cases h
        simp [hck]
      | present =>
        have hck : req.checkMode = true := by
          rcases h with h | h | h
          · exact h
          · rw [hmode] at h; cases h
          · rw [hmode] at h; cases h
        simp [hck]

/- ================== the claims ================== -/

/-- C2: the specification requires the `ne` filter operator to compile to
`column != value`, with the supplied value participating in the compiled
predicate.  The module's `_split_filter` instead appends the bare column
reference: the compiled predicate is the truthiness test of `c1` whatever
value is supplied (here 1 versus 2 give the same output), it contains no
occurrence of the value, and it matches a row whose `c1` equals the value
— a row that `c1 != 1` must exclude. -/
theorem c2_ne_ignores_value :
    splitFilter ["c1"] (FDict.consLeaf "ne" "c1" (Value.int 1) FDict.nil)
      = Except.ok [Pred.truthy "c1"] ∧
    splitFilter ["c1"] (FDict.consLeaf "ne" "c1" (Value.int 2) FDict.nil)
      = Except.ok [Pred.truthy "c1"] ∧
    evalPred [("c1", some (Value.int 1))] (Pred.truthy "c1") = true ∧
    rowGet [("c1", some (Value.int 1))] "c1" = some (Value.int 1) :=
  ⟨rfl, rfl, rfl, rfl⟩

/-- C3: the specification says a present-mode dry run returns normally
with the raw `desiredState` mapping as the row set.  The module does
assign `rows_after = self.new_values`, but then feeds that dict to
`format_rows`, which iterates its keys as if they were rows and calls
`.keys()` on a string: for any nonempty desired state the call raises
`AttributeError` instead of returning.  Shown here on the module's own
documented example request in check mode against an empty table. -/
theorem c3_check_mode_present_crashes :
    reqPresentCheck.state = Mode.present ∧ reqPresentCheck.checkMode = true ∧
    (run now0 reqPresentCheck []).res = Except.error Err.attributeError ∧
    (run now0 reqPresentCheck []).db = [] :=
  ⟨rfl, rfl, rfl, rfl⟩

/-- C4 counterexample: `select_rows` applies `.distinct()` whenever the
`distinct` parameter is set, in every mode.  For the same present-mode
request, the read statements built and executed with `distinct=true`
differ from those built with `distinct=false`, contradicting the claim
that they are identical for modes other than select. -/
theorem c4_counterexample :
    readStmts (run now0 (reqPresentDistinct true) []).trace ≠
      readStmts (run now0 (reqPresentDistinct false) []).trace := by
  intro h
  exact absurd (congrArg (List.map SelectStmt.distinct) h) (by decide)

/-- C4 (amended): the `distinct` flag applies to the read statement in
every mode, not only select: every read statement a run executes carries
the DISTINCT modifier exactly when the request's `distinct` flag is set. -/
theorem c4_distinct_every_read (now : PyDateTime) (req : Request) (db : DB)
    (s : SelectStmt) (hs : Stmt.read s ∈ (run now req db).trace) :
    s.distinct = req.distinct := by
  rcases run_trace_mem now req db (Stmt.read s) hs with ⟨wc, heq⟩ | ⟨hmut, -, -, -⟩
  · injection heq with h
    rw [h]
  · simp [Stmt.isMutating] at hmut

/-- Witness for C4's amended theorem: the single read statement of a
concrete select run has `distinct = false`, as the request does. -/
theorem c4_witness :
    (⟨false, false, some (Pred.andP (Preds.cons (Pred.eq "col1" (some (Value.str "blubb")))
        Preds.nil))⟩ : SelectStmt).distinct = reqSelect.distinct :=
  c4_distinct_every_read now0 reqSelect [] _
    (by
      show Stmt.read _ ∈ [Stmt.read _]
      exact List.mem_singleton.mpr rfl)

/-- C5: in select and count mode the module exits before any mutation
branch: whenever the call completes it reports `changed = false`, the
trace contains no insert/update/delete, and the database is returned
unchanged — whatever the dry-run flag and the current rows. -/
theorem c5_select_count_pure (now : PyDateTime) (req : Request) (db : DB)
    (hmode : req.state = Mode.select ∨ req.state = Mode.count) :
    (∀ b rows, (run now req db).res = Except.ok (b, rows) → b = false) ∧
    (∀ s ∈ (run now req db).trace, s.isMutating = false) ∧
    (run now req db).db = db := by
  refine ⟨?_, ?_, run_db_unchanged now req db (Or.inr hmode)⟩
  · intro b rows h
    unfold run at h
    cases hct : createTable now req.columns with
    | error e =>
      simp only [hct] at h
      cases h
    | ok p =>
      obtain ⟨nv, tfc⟩ := p
      simp only [hct] at h
      cases hwc : whereClause (tfc.map Prod.fst) req.keys nv req.filter with
      | error e =>
        simp only [hwc] at h
        cases h
      | ok wc =>
        simp only [hwc] at h
        rcases hmode with hm | hm <;> simp only [hm] at h <;> exact exceptMap_ok_fst h
  · intro s hs
    rcases run_trace_mem now req db s hs with ⟨wc, rfl⟩ | ⟨-, -, hsel, hcnt⟩
    · rfl
    · rcases hmode with hm | hm
      · exact absurd hm hsel
      · exact absurd hm hcnt

/-- Witness for C5 at a concrete select request. -/
theorem c5_witness : (run now0 reqSelect dbOneAaa).db = dbOneAaa :=
  (c5_select_count_pure now0 reqSelect dbOneAaa (Or.inl rfl)).2.2

/-- C6 counterexample: the claim says that with dryRun=true no statement
beyond the initial read is executed, i.e. at most one statement runs.  In
insert mode the module still performs its post-insert re-read in check
mode: this concrete check-mode insert run executes two statements. -/
theorem c6_counterexample :
    reqInsertCheck.checkMode = true ∧ (run now0 reqInsertCheck []).trace.length = 2 :=
  ⟨rfl, rfl⟩

/-- C6 (amended): with dryRun=true no MUTATING statement is executed —
insert mode still issues its post-insert re-read — so the database is
identical before and after the call, in every mode. -/
theorem c6_dry_run_no_mutation (now : PyDateTime) (req : Request) (db : DB)
    (hdry : req.checkMode = true) :
    (∀ s ∈ (run now req db).trace, s.isMutating = false) ∧ (run now req db).db = db := by
  refine ⟨?_, run_db_unchanged now req db (Or.inl hdry)⟩
  intro s hs
  rcases run_trace_mem now req db s hs with ⟨wc, rfl⟩ | ⟨-, hck, -, -⟩
  · rfl
  · rw [hdry] at hck
    cases hck

/-- Witness for C6's amended theorem: a concrete check-mode insert run
leaves the (empty) database empty. -/
theorem c6_witness : (run now0 reqInsertCheck []).db = ([] : DB) :=
  (c6_dry_run_no_mutation now0 reqInsertCheck [] rfl).2

/-- C7: the built WHERE clause is the `and_` of exactly the key
equalities followed by the compiled filter: every key with a declared
value contributes `column = declaredValue`, keys without a declared value
and declared non-key columns contribute no key equality, and the filter's
predicates are appended under the same `and_` (never OR'd or
substituted). -/
theorem c7_where_clause (cols keys : List String) (nv : NV) (fltr : FDict)
    (fargs : List Pred)
    (hnv : ∀ p ∈ nv, p.1 ∈ cols)
    (hsf : splitFilter cols fltr = Except.ok fargs) :
    whereClause cols keys nv fltr = Except.ok (mkWhere (keyEqs keys nv ++ fargs)) ∧
    (∀ p ∈ keyEqs keys nv, ∃ k ov, p = Pred.eq k ov ∧ k ∈ keys ∧ dictLookup nv k = some ov) ∧
    (∀ k ov, k ∈ keys → dictLookup nv k = some ov → Pred.eq k ov ∈ keyEqs keys nv) := by
  have hnv' : ∀ k ov, dictLookup nv k = some ov → k ∈ cols :=
    fun k ov h => hnv (k, ov) (dictLookup_mem h)
  refine ⟨?_, ?_, ?_⟩
  · unfold whereClause
    rw [whereKeysArgs_eq cols nv keys hnv']
    cases fltr with
    | nil =>
      simp only [splitFilter, Except.ok.injEq] at hsf
      subst hsf
      simp [FDict.isNil]
    | consSub k sub rest => simp [FDict.isNil, hsf]
    | consLeaf k c v rest => simp [FDict.isNil, hsf]
  · intro p hp
    exact mem_keyEqs.mp hp
  · intro k ov hk hov
    exact mem_keyEqs.mpr ⟨k, ov, rfl, hk, hov⟩

/-- Witness for C7: the key-predicate-scoping scenario of the
specification — keys `[col1]`, desired state `col1 = "blubb"`, `col2 = 1`,
plus an `eq` filter on `col2` — yields `col1 = "blubb" AND col2 = 5` with
no `col2` key equality. -/
theorem c7_witness :
    whereClause ["col1", "col2"] ["col1"]
        [("col1", some (Value.str "blubb")), ("col2", some (Value.int 1))]
        (FDict.consLeaf "eq" "col2" (Value.int 5) FDict.nil) =
      Except.ok (mkWhere (keyEqs ["col1"]
        [("col1", some (Value.str "blubb")), ("col2", some (Value.int 1))] ++
        [Pred.eq "col2" (some (Value.int 5))])) ∧
    Pred.eq "col1" (some (Value.str "blubb")) ∈ keyEqs ["col1"]
      [("col1", some (Value.str "blubb")), ("col2", some (Value.int 1))] :=
  ⟨(c7_where_clause ["col1", "col2"] ["col1"]
      [("col1", some (Value.str "blubb")), ("col2", some (Value.int 1))]
      (FDict.consLeaf "eq" "col2" (Value.int 5) FDict.nil)
      [Pred.eq "col2" (some (Value.int 5))] (by simp) rfl).1,
   (c7_where_clause ["col1", "col2"] ["col1"]
      [("col1", some (Value.str "blubb")), ("col2", some (Value.int 1))]
      (FDict.consLeaf "eq" "col2" (Value.int 5) FDict.nil)
      [Pred.eq "col2" (some (Value.int 5))] (by simp) rfl).2.2 "col1"
      (some (Value.str "blubb")) (by simp) rfl⟩

/-- C8: in absent mode, `changed` is true exactly when the initial read
returned at least one row, the DELETE statement is executed exactly when
`changed` is true and the run is not a dry run, and the returned row set
is null. -/
theorem c8_absent (now : PyDateTime) (req : Request) (db : DB) (nv : NV) (tfc : TFC)
    (wc : Option Pred)
    (hmode : req.state = Mode.absent)
    (hct : createTable now req.columns = Except.ok (nv, tfc))
    (hwc : whereClause (tfc.map Prod.fst) req.keys nv req.filter = Except.ok wc) :
    ∃ changed, (run now req db).res = Except.ok (changed, none) ∧
      (changed = true ↔ execSelect ⟨req.distinct, false, wc⟩ db ≠ []) ∧
      ((Stmt.delete wc ∈ (run now req db).trace) ↔
        (changed = true ∧ req.checkMode = false)) := by
  unfold run
  simp only [hct, hwc, hmode]
  simp only [show decide (Mode.absent = Mode.count) = false from rfl]
  by_cases hnl : execSelect ⟨req.distinct, false, wc⟩ db = []
  · have hlen : (execSelect ⟨req.distinct, false, wc⟩ db).length < 1 := by
      rw [hnl]
      simp
    rw [if_pos hlen, Bool.false_and, if_neg (by simp)]
    refine ⟨false, rfl, ?_, ?_⟩
    · constructor
      · intro h
        cases h
      · intro h
        exact absurd hnl h
    · constructor
      · intro h
        simp at h
      · rintro ⟨h, -⟩
        cases h
  · have hlen : ¬ (execSelect ⟨req.distinct, false, wc⟩ db).length < 1 := by
      intro h
      exact hnl (List.length_eq_zero.mp (Nat.lt_one_iff.mp h))
    rw [if_neg hlen]
    cases hck : req.checkMode with
    | false =>
      rw [Bool.not_false, Bool.and_true, if_pos rfl]
      refine ⟨true, rfl, ⟨fun _ => hnl, fun _ => rfl⟩, ?_⟩
      constructor
      · intro _
        exact ⟨rfl, rfl⟩
      · intro _
        simp [List.mem_append]
    | true =>
      rw [Bool.not_true, Bool.and_false, if_neg (by simp)]
      refine ⟨true, rfl, ⟨fun _ => hnl, fun _ => rfl⟩, ?_⟩
      constructor
      · intro h
        simp at h
      · rintro ⟨-, h⟩
        cases h

/-- Witness for C8: the documented scenario — absent mode with
`col1 = "zzz"` on a table whose only row has `col1 = "aaa"` — reports
`changed = false` with `rows = null` and executes no DELETE. -/
theorem c8_witness :
    ∃ changed, (run now0 reqAbsent dbOneAaa).res = Except.ok (changed, none) ∧
      (changed = true ↔ execSelect ⟨false, false, some (Pred.andP (Preds.cons
        (Pred.eq "col1" (some (Value.str "zzz"))) Preds.nil))⟩ dbOneAaa ≠ []) ∧
      ((Stmt.delete (some (Pred.andP (Preds.cons (Pred.eq "col1" (some (Value.str "zzz")))
          Preds.nil))) ∈ (run now0 reqAbsent dbOneAaa).trace) ↔
        (changed = true ∧ reqAbsent.checkMode = false)) :=
  c8_absent now0 reqAbsent dbOneAaa
    [("col1", some (Value.str "zzz"))] [("col1", LType.string)]
    (some (Pred.andP (Preds.cons (Pred.eq "col1" (some (Value.str "zzz"))) Preds.nil)))
    rfl rfl rfl

/-- C9: the module's `to_datetime` implements exactly the specified
Date/DateTime coercion on date-like and textual raw inputs: native
datetimes and dates pass through (a datetime is truncated to its calendar
date for Date), trimmed text equal to the case-sensitive token `now`
becomes the current evaluation timestamp (truncated for Date), and any
other text is parsed with the fixed `%Y-%m-%d` / `%Y-%m-%d %H:%M:%S`
format, a mismatch failing with `InvalidValueError`. -/
theorem c9_to_datetime_spec (now : PyDateTime) (x : Value) (dateFlag : Bool)
    (h : (∃ s, x = Value.str s) ∨ (∃ d, x = Value.dt d) ∨ (∃ d, x = Value.date d)) :
    to_datetime now x dateFlag = dateCoerceSpec now x dateFlag := by
  rcases h with ⟨s, rfl⟩ | ⟨d, rfl⟩ | ⟨d, rfl⟩
  · by_cases hn : pyStrip s = "now"
    · cases dateFlag <;> simp [to_datetime, dateCoerceSpec, hn]
    · cases dateFlag with
      | true =>
        cases hp : parseDateChars s.data <;>
          simp [to_datetime, dateCoerceSpec, hn, hp]
      | false =>
        cases hp : parseDateTimeChars s.data <;>
          simp [to_datetime, dateCoerceSpec, hn, hp]
  · cases dateFlag <;> rfl
  · cases dateFlag <;> rfl

/-- Witness for C9 at a fixed-format date text and at the padded `now`
token. -/
theorem c9_witness :
    to_datetime now0 (Value.str "2020-05-01") true
      = dateCoerceSpec now0 (Value.str "2020-05-01") true ∧
    to_datetime now0 (Value.str " now ") false
      = dateCoerceSpec now0 (Value.str " now ") false :=
  ⟨c9_to_datetime_spec now0 (Value.str "2020-05-01") true (Or.inl ⟨_, rfl⟩),
   c9_to_datetime_spec now0 (Value.str " now ") false (Or.inl ⟨_, rfl⟩)⟩

/-- C10: whenever `format_rows` succeeds, each returned row relates
entry-by-entry to the stored row: a stored NULL is returned as null
unchanged and is never passed to the column's coercion function, and each
non-null stored value is returned as the output of the coercion
function. -/
theorem c10_format_null (now : PyDateTime) (tfc : TFC) :
    ∀ (rows frows : List Row), formatRows now tfc rows = Except.ok frows →
    List.Forall₂ (fun row frow => List.Forall₂ (formattedEntry now tfc) row frow) rows frows := by
  have hrow : ∀ (row frow : Row), formatRow now tfc row = Except.ok frow →
      List.Forall₂ (formattedEntry now tfc) row frow := by
    intro row
    induction row with
    | nil =>
      intro frow h
      simp only [formatRow, Except.ok.injEq] at h
      subst h
      exact List.Forall₂.nil
    | cons p rest ih =>
      intro frow h
      obtain ⟨c, ov⟩ := p
      cases ht : dictLookup tfc c with
      | none =>
        simp only [formatRow, ht] at h
        cases h
      | some t =>
        cases ov with
        | none =>
          simp only [formatRow, ht] at h
          cases hrec : formatRow now tfc rest with
          | error e =>
            simp only [hrec] at h
            cases h
          | ok fr =>
            simp only [hrec, Except.ok.injEq] at h
            subst h
            exact List.Forall₂.cons ⟨rfl, Or.inl ⟨rfl, rfl⟩⟩ (ih fr hrec)
        | some v =>
          simp only [formatRow, ht] at h
          cases htf : typeFunc now t v with
          | error e =>
            simp only [htf] at h
            cases h
          | ok w =>
            simp only [htf] at h
            cases hrec : formatRow now tfc rest with
            | error e =>
              simp only [hrec] at h
              cases h
            | ok fr =>
              simp only [hrec, Except.ok.injEq] at h
              subst h
              exact List.Forall₂.cons ⟨rfl, Or.inr ⟨v, w, t, rfl, rfl, ht, htf⟩⟩ (ih fr hrec)
  intro rows
  induction rows with
  | nil =>
    intro frows h
    simp only [formatRows, Except.ok.injEq] at h
    subst h
    exact List.Forall₂.nil
  | cons r rs ih =>
    intro frows h
    cases hr : formatRow now tfc r with
    | error e =>
      simp only [formatRows, hr] at h
      cases h
    | ok fr =>
      simp only [formatRows, hr] at h
      cases hrs : formatRows now tfc rs with
      | error e =>
        simp only [hrs] at h
        cases h
      | ok frs =>
        simp only [hrs, Except.ok.injEq] at h
        subst h
        exact List.Forall₂.cons (hrow r fr hr) (ih frs hrs)

/-- Witness for C10 on a row with a NULL `a` and a non-null `b`. -/
theorem c10_witness :
    List.Forall₂ (fun row frow => List.Forall₂ (formattedEntry now0 tfcW) row frow)
      [[("a", none), ("b", some (Value.str "x"))]]
      [[("a", none), ("b", some (Value.str "x"))]] :=
  c10_format_null now0 tfcW
    [[("a", none), ("b", some (Value.str "x"))]]
    [[("a", none), ("b", some (Value.str "x"))]] rfl

/-- Witness for C1 on the module's documented ensure-present example
against an empty table: the first call inserts and a second call reports
`changed = false`. -/
theorem c1_witness :
    ∃ c1 r1 db1 tr1, run now0 reqPresent [] = ⟨Except.ok (c1, r1), db1, tr1⟩ ∧
      ∃ r2 tr2, run now0 reqPresent db1 = ⟨Except.ok (false, r2), db1, tr2⟩ :=
  c1_present_idempotent now0 reqPresent []
    [("col1", some (Value.str "blubb")), ("col2", some (Value.int 1))]
    [("col1", LType.string), ("col2", LType.integer)]
    rfl rfl rfl (by decide) rfl (by intro row hrow; cases hrow)

end SqlQuery
